import Mathlib

/-!
Verification of the stixmapper core (`app/stixmapper_svc.py`).

The service maps STIX 2.x attack-patterns to abilities.  The Python code is
dynamically typed, so the embedding works over a type `PVal` of Python runtime
values (None, bool, int, str, list, dict, and attribute-shaped objects) and
returns `Except PyErr` wherever the Python can raise.  String case mapping,
`\d`, and whitespace are modelled on their ASCII fragments, which is the
fragment exercised by MITRE technique identifiers and tactic names.
-/

set_option maxHeartbeats 1000000

namespace Stixmapper

/-- Python runtime values, as far as the service inspects them.
`vdict` is a mapping with string keys (first occurrence wins on lookup, as
Python dicts have unique keys); `vobj` is an attribute-shaped object whose
attributes are read with `getattr`. -/
inductive PVal where
  | vnone
  | vbool (b : Bool)
  | vint (n : Int)
  | vstr (s : String)
  | vlist (xs : List PVal)
  | vdict (kvs : List (String × PVal))
  | vobj (attrs : List (String × PVal))

/-- Python exceptions raised by the service code paths. -/
inductive PyErr where
  | valueError (msg : String)
  | attributeError (msg : String)
  | typeError (msg : String)
  deriving DecidableEq

/-- Python truthiness for the modelled values. -/
def pyTruthy : PVal → Bool
  | .vnone => false
  | .vbool b => b
  | .vint n => n != 0
  | .vstr s => !s.data.isEmpty
  | .vlist xs => !xs.isEmpty
  | .vdict kvs => !kvs.isEmpty
  | .vobj _ => true

/-- Python `str.lower()` (ASCII fragment, the one exercised by the data). -/
def pyLower (s : String) : String := String.mk (s.data.map Char.toLower)

/-- Python `str.upper()` (ASCII fragment). -/
def pyUpper (s : String) : String := String.mk (s.data.map Char.toUpper)

/-- Python `str.strip()` (ASCII whitespace fragment). -/
def pyStrip (s : String) : String :=
  String.mk (((s.data.dropWhile Char.isWhitespace).reverse.dropWhile
    Char.isWhitespace).reverse)

/-- The string is empty (Python falsity of a string). -/
def strEmpty (s : String) : Bool := s.data.isEmpty

/-- First-occurrence lookup in an association list (Python dict lookup). -/
def lookupKey (kvs : List (String × PVal)) (k : String) : Option PVal :=
  match kvs with
  | [] => none
  | (k1, v) :: rest => if k1 = k then some v else lookupKey rest k

/-- `d.get(k)` on a value already known to be a dict: absent key gives `None`. -/
def dGet (kvs : List (String × PVal)) (k : String) : PVal :=
  (lookupKey kvs k).getD .vnone

/-- `v.get(k)`: dict lookup, raising `AttributeError` when `v` is not a dict
(no other modelled value has a `get` method). -/
def pyGet (v : PVal) (k : String) : Except PyErr PVal :=
  match v with
  | .vdict kvs => .ok (dGet kvs k)
  | _ => .error (.attributeError "object has no attribute get")

/-- `getattr(v, k, d)`: attribute read with a default.  Only `vobj` carries
data attributes; every other value falls to the default. -/
def pyGetAttrD (v : PVal) (k : String) (d : PVal) : PVal :=
  match v with
  | .vobj attrs => (lookupKey attrs k).getD d
  | _ => d

/-- Python `a or b`. -/
def pyOr (a b : PVal) : PVal := if pyTruthy a then a else b

/-- Python `v == "s"` for a string literal on the right. -/
def pyEqStr (v : PVal) (s : String) : Bool :=
  match v with
  | .vstr s1 => s1 = s
  | _ => false

/-- `v` is exactly Python `None` (`is None`). -/
def PVal.isNone : PVal → Bool
  | .vnone => true
  | _ => false

/-- `(v or "")` followed by a string method: falsy values become `""`,
a truthy non-string raises `AttributeError` at the method call. -/
def pyOrEmptyStr (v : PVal) : Except PyErr String :=
  if pyTruthy v then
    match v with
    | .vstr s => .ok s
    | _ => .error (.attributeError "object has no string method")
  else .ok ""

/-- `(v or "")` handed to `re.search`: falsy values become `""`, a truthy
non-string raises `TypeError` inside the regex engine. -/
def pyOrEmptyStrForRe (v : PVal) : Except PyErr String :=
  if pyTruthy v then
    match v with
    | .vstr s => .ok s
    | _ => .error (.typeError "expected string or bytes-like object")
  else .ok ""

/-- The pure value of `(v or "")` when `v` is falsy or a string. -/
def orEmptyPure (v : PVal) : String :=
  if pyTruthy v then
    match v with
    | .vstr s => s
    | _ => ""
  else ""

/-- Python iteration (`for x in v`): lists yield elements, strings yield
one-character strings, dicts yield their keys; other values raise
`TypeError`. -/
def pyIterate (v : PVal) : Except PyErr (List PVal) :=
  match v with
  | .vlist xs => .ok xs
  | .vstr s => .ok (s.data.map fun c => .vstr (String.mk [c]))
  | .vdict kvs => .ok (kvs.map fun kv => .vstr kv.1)
  | _ => .error (.typeError "object is not iterable")

/-!  The two module-level regular expressions.

`MITRE_TECH_ID_RE = ^(?P<tech>T\d{4})(?:\.(?P<sub>\d{3}))?$` (IGNORECASE),
used with `re.match`; `$` also matches just before one trailing newline.
`MITRE_URL_ID_RE = /techniques/(?P<tech_id>T\d{4})(?:/(?P<sub>\d{3}))?`
(IGNORECASE), used with `re.search` (leftmost match). -/

/-- The character list matches `T\d{4}(\.\d{3})?` entirely (case-insensitive
`T`). -/
def techIdCore : List Char → Bool
  | t :: a :: b :: c :: d :: rest =>
    (t = 'T' || t = 't') && a.isDigit && b.isDigit && c.isDigit && d.isDigit &&
      (match rest with
       | [] => true
       | '.' :: x :: y :: z :: [] => x.isDigit && y.isDigit && z.isDigit
       | _ => false)
  | _ => false

/-- `MITRE_TECH_ID_RE.match(s)`, returning `group(0)` on success.  Because of
`$`, a single trailing newline is tolerated and excluded from the match. -/
def reTechIdMatch (s : String) : Option String :=
  if techIdCore s.data then some s
  else
    match s.data.getLast? with
    | some '\n' => if techIdCore s.data.dropLast then some (String.mk s.data.dropLast) else none
    | _ => none

/-- Drop a case-insensitive literal (given in lower case) from the front of a
character list. -/
def dropLitCI : List Char → List Char → Option (List Char)
  | [], cs => some cs
  | _ :: _, [] => none
  | p :: ps, c :: cs => if c.toLower = p then dropLitCI ps cs else none

/-- Try `MITRE_URL_ID_RE` at the current position: literal `/techniques/`
(case-insensitive), `T` + 4 digits into group `tech_id`, then a greedy
optional `/` + 3 digits into group `sub`. -/
def urlMatchAt (cs : List Char) : Option (String × Option String) :=
  match dropLitCI "/techniques/".data cs with
  | none => none
  | some rest =>
    match rest with
    | t :: a :: b :: c :: d :: rest2 =>
      if (t = 'T' || t = 't') && a.isDigit && b.isDigit && c.isDigit && d.isDigit then
        let tech := String.mk [t, a, b, c, d]
        match rest2 with
        | '/' :: x :: y :: z :: _ =>
          if x.isDigit && y.isDigit && z.isDigit then some (tech, some (String.mk [x, y, z]))
          else some (tech, none)
        | _ => some (tech, none)
      else none
    | _ => none

/-- `re.search`: try each start position left to right. -/
def urlSearchAux : List Char → Option (String × Option String)
  | [] => none
  | c :: rest =>
    match urlMatchAt (c :: rest) with
    | some r => some r
    | none => urlSearchAux rest

/-- `MITRE_URL_ID_RE.search(s)`, returning `(group("tech_id"), group("sub"))`. -/
def reUrlSearch (s : String) : Option (String × Option String) :=
  urlSearchAux s.data

/-- `StixmapperService._get(obj, path, default)`: walk `path`, using dict
lookup on dicts and `getattr(-, -, None)` otherwise; a `None` at any step
returns the default, and the final value is returned as-is. -/
def svcGet (obj : PVal) (path : List String) (default : PVal := .vnone) : PVal :=
  match path with
  | [] => obj
  | k :: rest =>
    let cur :=
      match obj with
      | .vdict kvs => dGet kvs k
      | _ => pyGetAttrD obj k .vnone
    if cur.isNone then default else svcGet cur rest default

/-- Body of the first loop of `_extract_mitre_technique_id`: scan references
for one whose `source_name` is `mitre-attack` (case-insensitive); try its
`external_id` against `MITRE_TECH_ID_RE`, then its `url` against
`MITRE_URL_ID_RE`; the first hit is returned upper-cased. -/
def techIdLoop1 : List PVal → Except PyErr (Option String)
  | [] => .ok none
  | ref :: rest => do
    let snV ← pyGet ref "source_name"
    let sn ← pyOrEmptyStr snV
    if pyLower sn = "mitre-attack" then do
      let eiV ← pyGet ref "external_id"
      let ei ← pyOrEmptyStr eiV
      let extId := pyStrip ei
      let hit : Option String :=
        if !strEmpty extId then
          match reTechIdMatch extId with
          | some g => some (pyUpper g)
          | none => none
        else none
      match hit with
      | some r => pure (some r)
      | none => do
        let urlV ← pyGet ref "url"
        let url ← pyOrEmptyStrForRe urlV
        match reUrlSearch url with
        | some (tech, sub) =>
          let t := pyUpper tech
          match sub with
          | some su => pure (some (t ++ "." ++ su))
          | none => pure (some t)
        | none => techIdLoop1 rest
    else techIdLoop1 rest

/-- Body of the fallback loop of `_extract_mitre_technique_id`: scan every
reference's `url` for the MITRE technique URL pattern. -/
def techIdLoop2 : List PVal → Except PyErr (Option String)
  | [] => .ok none
  | ref :: rest => do
    let urlV ← pyGet ref "url"
    let url ← pyOrEmptyStrForRe urlV
    match reUrlSearch url with
    | some (tech, sub) =>
      let t := pyUpper tech
      match sub with
      | some su => pure (some (t ++ "." ++ su))
      | none => pure (some t)
    | none => techIdLoop2 rest

/-- `StixmapperService._extract_mitre_technique_id`. -/
def extractMitreTechniqueId (ap : PVal) : Except PyErr (Option String) := do
  let refsV ← pyGet ap "external_references"
  let refs ← pyIterate (pyOr refsV (.vlist []))
  match ← techIdLoop1 refs with
  | some r => pure (some r)
  | none => techIdLoop2 refs

/-- Loop of `_extract_mitre_tactics`: collect the trimmed non-empty
`phase_name` of every phase whose `kill_chain_name` is `mitre-attack`
(case-insensitive), in traversal order (the set-insertions, before
deduplication). -/
def tacticsLoop : List PVal → Except PyErr (List String)
  | [] => .ok []
  | p :: rest => do
    let knV ← pyGet p "kill_chain_name"
    let kn ← pyOrEmptyStr knV
    let here ←
      if pyLower kn = "mitre-attack" then do
        let pnV ← pyGet p "phase_name"
        let pn ← pyOrEmptyStr pnV
        let ph := pyStrip pn
        if !strEmpty ph then pure [ph] else pure ([] : List String)
      else pure ([] : List String)
    let tail ← tacticsLoop rest
    pure (here ++ tail)

/-- Lexicographic (code point) comparison of character lists: Python's `<=`
on strings. -/
def charListLe : List Char → List Char → Bool
  | [], _ => true
  | _ :: _, [] => false
  | a :: as, b :: bs => if a = b then charListLe as bs else decide (a < b)

/-- Python `s1 <= s2` on strings. -/
def strLeB (a b : String) : Bool := charListLe a.data b.data

/-- `strLeB` as a relation, for sortedness statements. -/
def strLe (a b : String) : Prop := strLeB a b = true

/-- Insert a string into a list, before the first strictly larger element. -/
def insertStr (x : String) : List String → List String
  | [] => [x]
  | y :: ys => if strLeB x y then x :: y :: ys else y :: insertStr x ys

/-- `sorted(...)` on a collection of strings: insertion sort by the
code-point order (Python sorts strings by code points). -/
def sortStrings : List String → List String
  | [] => []
  | x :: xs => insertStr x (sortStrings xs)

/-- `StixmapperService._extract_mitre_tactics`: returns
`sorted({collected phase names})`. -/
def extractMitreTactics (ap : PVal) : Except PyErr (List String) := do
  let phV ← pyGet ap "kill_chain_phases"
  let phases ← pyIterate (pyOr phV (.vlist []))
  let collected ← tacticsLoop phases
  pure (sortStrings collected.dedup)

/-- `tech = self._get(a, ["technique"]) or {}` inside
`_find_abilities_for_attack_id`. -/
def abilityTechRaw (a : PVal) : PVal :=
  pyOr (svcGet a ["technique"]) (.vdict [])

/-- The pair `(ability_attack_id, tech_name)` read off an ability record:
dict-shaped techniques use `.get`, anything else uses `getattr`. -/
def abilityFields (a : PVal) : PVal × PVal :=
  match abilityTechRaw a with
  | .vdict kvs => (dGet kvs "attack_id", dGet kvs "name")
  | t => (pyGetAttrD t "attack_id" .vnone, pyGetAttrD t "name" .vnone)

/-- The `attack_id` an ability exposes, as the matcher reads it. -/
def abilityAttackIdRaw (a : PVal) : PVal := (abilityFields a).1

/-- The normalized output ability record built by
`_find_abilities_for_attack_id` (the `matched.append({...})` literal),
including the `or`-chains over dict lookups and attribute reads. -/
def normAbility (a : PVal) : PVal :=
  .vdict
    [("ability_id",
      pyOr (pyOr (pyOr (svcGet a ["ability_id"]) (svcGet a ["id"]))
        (pyGetAttrD a "ability_id" .vnone)) (pyGetAttrD a "id" .vnone)),
     ("name", pyOr (svcGet a ["name"]) (pyGetAttrD a "name" .vnone)),
     ("tactic", pyOr (svcGet a ["tactic"]) (pyGetAttrD a "tactic" .vnone)),
     ("technique",
      .vdict [("attack_id", (abilityFields a).1), ("name", (abilityFields a).2)])]

/-- Loop of `_find_abilities_for_attack_id` over the located abilities:
keep (normalized) the abilities whose `(attack_id or "").upper()` equals
`attack_id.upper()`. -/
def findLoop (attack_id : String) : List PVal → Except PyErr (List PVal)
  | [] => .ok []
  | a :: rest => do
    let aidS ← pyOrEmptyStr (abilityAttackIdRaw a)
    let tail ← findLoop attack_id rest
    if pyUpper aidS = pyUpper attack_id then pure (normAbility a :: tail)
    else pure tail

/-- `StixmapperService._find_abilities_for_attack_id`.  The ability store
(`data_svc.locate('abilities')`) is an external collaborator and enters as the
list `store`. -/
def findAbilitiesForAttackId (store : List PVal) (attack_id : String) :
    Except PyErr (List PVal) :=
  findLoop attack_id store

/-- The tactic-filter comprehension
`[a for a in abilities if (a.get('tactic') in tactic_set)]`: membership of an
unhashable value (list/dict) in a set raises `TypeError`. -/
def filterLoop (tacticSet : List String) : List PVal → Except PyErr (List PVal)
  | [] => .ok []
  | a :: rest => do
    let tV ← pyGet a "tactic"
    let keep ←
      match tV with
      | .vstr s => .ok (tacticSet.contains s)
      | .vlist _ => .error (.typeError "unhashable type")
      | .vdict _ => .error (.typeError "unhashable type")
      | _ => .ok false
    let tail ← filterLoop tacticSet rest
    if keep then pure (a :: tail) else pure tail

/-- `if filter_by_tactic and tactics and abilities: abilities = [...]` from the
main loop: the comprehension runs only when all three are truthy. -/
def applyTacticFilter (filter_by_tactic : Bool) (tactics : List String)
    (abilities : List PVal) : Except PyErr (List PVal) :=
  if filter_by_tactic && !tactics.isEmpty && !abilities.isEmpty then
    filterLoop tactics abilities
  else .ok abilities

/-- `technique_id.split('.', 1)[0]`. -/
def beforeDot (tid : String) : String :=
  String.mk (tid.data.takeWhile fun c => c ≠ '.')

/-- Lines 43–47 of the main loop: the exact-match query, and the parent
fallback when it came up empty, `fallback_to_parent` is set and the ID is a
sub-technique.  The third component records the technique IDs passed to
`_find_abilities_for_attack_id`, in order (instrumentation only; the caller
ignores it). -/
def abilityLookup (store : List PVal) (technique_id : String)
    (fallback_to_parent : Bool) :
    Except PyErr (List PVal × Option String × List String) := do
  let abilities ← findAbilitiesForAttackId store technique_id
  if abilities.isEmpty && fallback_to_parent && technique_id.data.contains '.' then do
    let parent := pyUpper (beforeDot technique_id)
    let abilities2 ← findAbilitiesForAttackId store parent
    pure (abilities2, some parent, [technique_id, parent])
  else
    pure (abilities, none, [technique_id])

/-- The `mappings.append({...})` literal of the technique branch: the
`parent_technique_id` key is spliced in only when that variable is truthy. -/
def mkMapping (apId apName : PVal) (technique_id : String)
    (parent : Option String) (tactics : List String) (abilities : List PVal) :
    PVal :=
  .vdict
    ([("attack_pattern_id", apId), ("name", apName),
      ("technique_id", .vstr technique_id)] ++
     (match parent with
      | some p => if strEmpty p then [] else [("parent_technique_id", PVal.vstr p)]
      | none => []) ++
     [("tactics", .vlist (tactics.map .vstr)), ("abilities", .vlist abilities)])

/-- The `mappings.append({...})` literal of the no-technique branch. -/
def mkMappingNoTech (apId apName : PVal) (tactics : List String) : PVal :=
  .vdict
    [("attack_pattern_id", apId), ("name", apName), ("technique_id", .vnone),
     ("tactics", .vlist (tactics.map .vstr)), ("abilities", .vlist [])]

/-- One iteration of the main loop of `match_stix_to_abilities` over an
attack-pattern: returns the appended mapping, the increment to
`ap_with_tech`, the increment to `total_abilities`, and (instrumentation) the
technique IDs queried against the store. -/
def processAP (store : List PVal) (fallback_to_parent filter_by_tactic : Bool)
    (ap : PVal) : Except PyErr (PVal × Nat × Nat × List String) := do
  let apId ← pyGet ap "id"
  let apName ← pyGet ap "name"
  let tactics ← extractMitreTactics ap
  let techO ← extractMitreTechniqueId ap
  match techO with
  | some technique_id =>
    if strEmpty technique_id then
      pure (mkMappingNoTech apId apName tactics, 0, 0, [])
    else do
      let (abilities, parent, queries) ← abilityLookup store technique_id fallback_to_parent
      let abilities ← applyTacticFilter filter_by_tactic tactics abilities
      pure (mkMapping apId apName technique_id parent tactics abilities, 1,
            abilities.length, queries)
  | none => pure (mkMappingNoTech apId apName tactics, 0, 0, [])

/-- The main loop: mappings in input order, plus the `ap_with_tech` and
`total_abilities` counters. -/
def processLoop (store : List PVal) (fallback_to_parent filter_by_tactic : Bool) :
    List PVal → Except PyErr (List PVal × Nat × Nat)
  | [] => .ok ([], 0, 0)
  | ap :: rest => do
    let (m, w, c, _) ← processAP store fallback_to_parent filter_by_tactic ap
    let (ms, ws, cs) ← processLoop store fallback_to_parent filter_by_tactic rest
    pure (m :: ms, w + ws, c + cs)

/-- The comprehension
`[o for o in objs if o.get('type') == 'attack-pattern']`. -/
def filterAttackPatterns : List PVal → Except PyErr (List PVal)
  | [] => .ok []
  | o :: rest => do
    let t ← pyGet o "type"
    let tail ← filterAttackPatterns rest
    if pyEqStr t "attack-pattern" then pure (o :: tail) else pure tail

/-- The message of the `ValueError` raised on a non-bundle input — the spec's
`InvalidBundle` condition. -/
def invalidBundleMsg : String := "Expected a STIX bundle object with type='bundle'"

/-- `StixmapperService.match_stix_to_abilities`.  The ability store is the
external collaborator `store`; the result is the returned dict. -/
def matchStixToAbilities (store : List PVal) (stix_bundle : PVal)
    (fallback_to_parent : Bool := true) (filter_by_tactic : Bool := false) :
    Except PyErr PVal :=
  match stix_bundle with
  | .vdict kvs =>
    if pyEqStr (dGet kvs "type") "bundle" then do
      let objs ← pyIterate (pyOr (dGet kvs "objects") (.vlist []))
      let attack_patterns ← filterAttackPatterns objs
      let (mappings, ap_with_tech, total_abilities) ←
        processLoop store fallback_to_parent filter_by_tactic attack_patterns
      pure (.vdict
        [("mappings", .vlist mappings),
         ("stats", .vdict
           [("attack_patterns", .vint attack_patterns.length),
            ("with_technique", .vint ap_with_tech),
            ("abilities_found", .vint total_abilities)])])
    else .error (.valueError invalidBundleMsg)
  | _ => .error (.valueError invalidBundleMsg)

/-! ### Well-shapedness predicates and exception-free counterparts

The Python pipeline raises `AttributeError`/`TypeError` on values of
unexpected dynamic type.  The predicates below carve out the inputs on which
it cannot raise past the bundle check; over them each stage equals a pure
function, proved in the agreement lemmas further down. -/

/-- The value is falsy or a string: `(v or "")` then a string method cannot
raise on it. -/
def strOrFalsy (v : PVal) : Bool :=
  !pyTruthy v ||
    (match v with
     | .vstr _ => true
     | _ => false)

/-- The value is hashable (set membership cannot raise): everything but
lists and dicts. -/
def hashable (v : PVal) : Bool :=
  match v with
  | .vlist _ => false
  | .vdict _ => false
  | _ => true

/-- An external reference the extractor can process without raising. -/
def wellShapedRef (r : PVal) : Bool :=
  match r with
  | .vdict kvs =>
    strOrFalsy (dGet kvs "source_name") && strOrFalsy (dGet kvs "external_id") &&
      strOrFalsy (dGet kvs "url")
  | _ => false

/-- A kill-chain phase the extractor can process without raising. -/
def wellShapedPhase (p : PVal) : Bool :=
  match p with
  | .vdict kvs =>
    strOrFalsy (dGet kvs "kill_chain_name") && strOrFalsy (dGet kvs "phase_name")
  | _ => false

/-- A field that is about to be `or []`-defaulted and iterated: falsy, or a
list of well-shaped elements. -/
def listOrFalsy (v : PVal) (elemOk : PVal → Bool) : Bool :=
  if pyTruthy v then
    match v with
    | .vlist xs => xs.all elemOk
    | _ => false
  else true

/-- The `external_references` of the attack-pattern are processable. -/
def wellShapedAPRefs (ap : PVal) : Bool :=
  match ap with
  | .vdict kvs => listOrFalsy (dGet kvs "external_references") wellShapedRef
  | _ => false

/-- The `kill_chain_phases` of the attack-pattern are processable. -/
def wellShapedAPPhases (ap : PVal) : Bool :=
  match ap with
  | .vdict kvs => listOrFalsy (dGet kvs "kill_chain_phases") wellShapedPhase
  | _ => false

/-- A fully processable attack-pattern. -/
def wellShapedAP (ap : PVal) : Bool :=
  wellShapedAPRefs ap && wellShapedAPPhases ap

/-- The `tactic` the matcher reads off an ability record (the value placed in
the normalized output). -/
def abilityTacticRaw (a : PVal) : PVal :=
  pyOr (svcGet a ["tactic"]) (pyGetAttrD a "tactic" .vnone)

/-- An ability record the matcher and the tactic filter can process without
raising: its `attack_id` is falsy-or-string and its `tactic` is hashable. -/
def wellShapedAbility (a : PVal) : Bool :=
  strOrFalsy (abilityAttackIdRaw a) && hashable (abilityTacticRaw a)

/-- A bundle object the main loop can process without raising: a dict, and a
well-shaped attack-pattern if its `type` says so. -/
def wellShapedObj (o : PVal) : Bool :=
  match o with
  | .vdict kvs => !pyEqStr (dGet kvs "type") "attack-pattern" || wellShapedAP o
  | _ => false

/-- A bundle-shaped dict: the inputs the source accepts past its only
explicit validation (`InvalidBundle` otherwise). -/
def bundleShaped (b : PVal) : Bool :=
  match b with
  | .vdict kvs => pyEqStr (dGet kvs "type") "bundle"
  | _ => false

/-- A fully processable bundle: bundle-shaped, and its `objects` is falsy or
a list of well-shaped objects. -/
def wellShapedBundle (b : PVal) : Bool :=
  match b with
  | .vdict kvs =>
    pyEqStr (dGet kvs "type") "bundle" && listOrFalsy (dGet kvs "objects") wellShapedObj
  | _ => false

/-- The reference list the extractor iterates (`external_references or []`),
as a pure projection. -/
def apRefs (ap : PVal) : List PVal :=
  match ap with
  | .vdict kvs =>
    match pyOr (dGet kvs "external_references") (.vlist []) with
    | .vlist xs => xs
    | _ => []
  | _ => []

/-- The phase list the extractor iterates (`kill_chain_phases or []`), as a
pure projection. -/
def apPhases (ap : PVal) : List PVal :=
  match ap with
  | .vdict kvs =>
    match pyOr (dGet kvs "kill_chain_phases") (.vlist []) with
    | .vlist xs => xs
    | _ => []
  | _ => []

/-- The object list the service iterates (`objects or []`), as a pure
projection. -/
def bundleObjs (b : PVal) : List PVal :=
  match b with
  | .vdict kvs =>
    match pyOr (dGet kvs "objects") (.vlist []) with
    | .vlist xs => xs
    | _ => []
  | _ => []

/-- Pure counterpart of the `external_id` attempt on one reference: the
trimmed `external_id`, when non-empty and matching `MITRE_TECH_ID_RE`,
upper-cased. -/
def refExtIdHit (r : PVal) : Option String :=
  match r with
  | .vdict kvs =>
    let extId := pyStrip (orEmptyPure (dGet kvs "external_id"))
    if !strEmpty extId then
      match reTechIdMatch extId with
      | some g => some (pyUpper g)
      | none => none
    else none
  | _ => none

/-- Pure counterpart of the `url` attempt on one reference. -/
def refUrlHit (r : PVal) : Option String :=
  match r with
  | .vdict kvs =>
    match reUrlSearch (orEmptyPure (dGet kvs "url")) with
    | some (tech, some su) => some (pyUpper tech ++ "." ++ su)
    | some (tech, none) => some (pyUpper tech)
    | none => none
  | _ => none

/-- The reference's `source_name` is `mitre-attack`, case-insensitively. -/
def isMitreRef (r : PVal) : Bool :=
  match r with
  | .vdict kvs => pyLower (orEmptyPure (dGet kvs "source_name")) = "mitre-attack"
  | _ => false

/-- What one `mitre-attack` reference yields in the first loop: its
`external_id`, else its `url`. -/
def mitreRefHit (r : PVal) : Option String :=
  if isMitreRef r then
    match refExtIdHit r with
    | some v => some v
    | none => refUrlHit r
  else none

/-- Pure counterpart of the whole technique-ID derivation over a reference
list: scan references in order, each `mitre-attack` reference trying its
`external_id` and then its own `url`; only when no `mitre-attack` reference
yields anything, scan all references' URLs. -/
def perEntryTechId (refs : List PVal) : Option String :=
  match refs.findSome? mitreRefHit with
  | some v => some v
  | none => refs.findSome? refUrlHit

/-- Pure counterpart of one phase's contribution to the tactics: the trimmed
`phase_name`, when the `kill_chain_name` is `mitre-attack` and the result is
non-empty. -/
def phaseTactic (p : PVal) : Option String :=
  match p with
  | .vdict kvs =>
    if pyLower (orEmptyPure (dGet kvs "kill_chain_name")) = "mitre-attack" then
      let ph := pyStrip (orEmptyPure (dGet kvs "phase_name"))
      if !strEmpty ph then some ph else none
    else none
  | _ => none

/-- The exact-match test of the matcher, as a pure predicate: the ability's
`(attack_id or "").upper()` equals `attack_id.upper()`. -/
def attackMatchB (attack_id : String) (a : PVal) : Bool :=
  decide (pyUpper (orEmptyPure (abilityAttackIdRaw a)) = pyUpper attack_id)

/-- The tactic-filter test, as a pure predicate on a (dict-shaped) ability
output record: its `tactic` is a string belonging to the tactic set.  No
case transformation is applied on either side. -/
def tacticMemB (tacticSet : List String) (a : PVal) : Bool :=
  match a with
  | .vdict kvs =>
    match dGet kvs "tactic" with
    | .vstr s => tacticSet.contains s
    | _ => false
  | _ => false

/-- An element the tactic-filter comprehension can process without raising:
dict-shaped with a hashable `tactic`. -/
def filterableAbility (a : PVal) : Bool :=
  match a with
  | .vdict kvs => hashable (dGet kvs "tactic")
  | _ => false

/-- The comprehension's test `o.get('type') == 'attack-pattern'`, as a pure
predicate on dict-shaped objects. -/
def isAttackPatternObj (o : PVal) : Bool :=
  match o with
  | .vdict kvs => pyEqStr (dGet kvs "type") "attack-pattern"
  | _ => false

/-- Key lookup on a dict-shaped output value (`None` when absent). -/
def getKey (m : PVal) (k : String) : PVal :=
  match m with
  | .vdict kvs => dGet kvs k
  | _ => .vnone

/-- Key presence on a dict-shaped output value. -/
def hasKeyB (m : PVal) (k : String) : Bool :=
  match m with
  | .vdict kvs => (lookupKey kvs k).isSome
  | _ => false

/-- The output-record shape every returned ability presents: exactly the
keys `ability_id`, `name`, `tactic` and a nested `technique` record with
exactly `attack_id` and `name`. -/
def normalizedAbilityShape (m : PVal) : Bool :=
  match m with
  | .vdict [("ability_id", _), ("name", _), ("tactic", _),
      ("technique", .vdict [("attack_id", _), ("name", _)])] => true
  | _ => false

/-- An `Except` outcome that is not a `ValueError` (the only `ValueError` in
the service is the `InvalidBundle` rejection). -/
def isVE : PyErr → Bool
  | .valueError _ => true
  | _ => false

/-- The outcome is not a `ValueError` (any other exception, or success). -/
def NonVE {α : Type} (e : Except PyErr α) : Prop :=
  ∀ msg, e ≠ .error (.valueError msg)

/-- The length of the `abilities` list of a mapping record. -/
def abilitiesLen (m : PVal) : Nat :=
  match getKey m "abilities" with
  | .vlist xs => xs.length
  | _ => 0

/-- The mapping record carries a non-null `technique_id`. -/
def hasTechB (m : PVal) : Bool :=
  !(getKey m "technique_id").isNone

/-- Modelled from the claim's words for comparison with the source: a strict
global priority — first any `mitre-attack` reference with a pattern-matching
`external_id`, failing that any `mitre-attack` reference's URL, and only then
all references' URLs. -/
def claimStrictPriorityTechId (refs : List PVal) : Option String :=
  match refs.findSome? (fun r => if isMitreRef r then refExtIdHit r else none) with
  | some v => some v
  | none =>
    match refs.findSome? (fun r => if isMitreRef r then refUrlHit r else none) with
    | some v => some v
    | none => refs.findSome? refUrlHit

/-! ### Concrete fixtures for witnesses and counterexamples -/

/-- A dict-shaped ability for `T1059.001` (lower-case stored ID). -/
def fxAbility1 : PVal :=
  .vdict [("ability_id", .vstr "a1"), ("name", .vstr "n1"),
    ("tactic", .vstr "execution"),
    ("technique", .vdict [("attack_id", .vstr "t1059.001"), ("name", .vstr "tech")])]

/-- An attribute-shaped ability for `T1059.001`. -/
def fxAbility2 : PVal :=
  .vobj [("id", .vstr "a2"), ("name", .vstr "n2"), ("tactic", .vstr "execution"),
    ("technique", .vobj [("attack_id", .vstr "T1059.001"), ("name", .vstr "tech")])]

/-- A dict-shaped ability for the parent technique `T1059`. -/
def fxAbilityParent : PVal :=
  .vdict [("ability_id", .vstr "a3"), ("name", .vstr "n3"),
    ("tactic", .vstr "execution"),
    ("technique", .vdict [("attack_id", .vstr "T1059"), ("name", .vstr "parent")])]

/-- The normalized record the matcher emits for `fxAbilityParent`. -/
def fxNormParent : PVal :=
  .vdict [("ability_id", .vstr "a3"), ("name", .vstr "n3"),
    ("tactic", .vstr "execution"),
    ("technique", .vdict [("attack_id", .vstr "T1059"), ("name", .vstr "parent")])]

/-- An attack-pattern carrying `T1059.001` and the `execution` tactic. -/
def fxAP : PVal :=
  .vdict [("type", .vstr "attack-pattern"), ("id", .vstr "ap--1"),
    ("name", .vstr "inject"),
    ("external_references", .vlist [.vdict [("source_name", .vstr "mitre-attack"),
      ("external_id", .vstr "T1059.001")]]),
    ("kill_chain_phases", .vlist [.vdict [("kill_chain_name", .vstr "mitre-attack"),
      ("phase_name", .vstr "execution")]])]

/-- A bundle holding just `fxAP`. -/
def fxBundle : PVal :=
  .vdict [("type", .vstr "bundle"), ("objects", .vlist [fxAP])]

/-- A bundle with one object that is not an attack-pattern. -/
def fxBundleNoAP : PVal :=
  .vdict [("type", .vstr "bundle"),
    ("objects", .vlist [.vdict [("type", .vstr "indicator")]])]

/-- The output of the service on `fxBundle` over the store
`[fxAbilityParent]` with fallback on: the parent ability is found via
`T1059`. -/
def fxOut : PVal :=
  .vdict [("mappings", .vlist
    [.vdict [("attack_pattern_id", .vstr "ap--1"), ("name", .vstr "inject"),
      ("technique_id", .vstr "T1059.001"), ("parent_technique_id", .vstr "T1059"),
      ("tactics", .vlist [.vstr "execution"]),
      ("abilities", .vlist [fxNormParent])]]),
    ("stats", .vdict [("attack_patterns", .vint 1), ("with_technique", .vint 1),
      ("abilities_found", .vint 1)])]

/-- An attack-pattern whose first `mitre-attack` reference has only a URL
(`T1234`) while a later `mitre-attack` reference has a valid `external_id`
(`T5678`). -/
def fxApC5 : PVal :=
  .vdict [("external_references", .vlist
    [.vdict [("source_name", .vstr "mitre-attack"),
      ("url", .vstr "https://attack.mitre.org/techniques/T1234")],
     .vdict [("source_name", .vstr "mitre-attack"),
      ("external_id", .vstr "T5678")]])]

/-- An attack-pattern with mixed-case chain names, a duplicated phase,
whitespace to trim, a foreign kill chain, and a blank phase name. -/
def fxApTac : PVal :=
  .vdict [("kill_chain_phases", .vlist
    [.vdict [("kill_chain_name", .vstr "MITRE-ATTACK"),
      ("phase_name", .vstr " privilege-escalation ")],
     .vdict [("kill_chain_name", .vstr "mitre-attack"),
      ("phase_name", .vstr "defense-evasion")],
     .vdict [("kill_chain_name", .vstr "mitre-attack"),
      ("phase_name", .vstr "defense-evasion")],
     .vdict [("kill_chain_name", .vstr "lockheed"), ("phase_name", .vstr "zzz")],
     .vdict [("kill_chain_name", .vstr "mitre-attack"), ("phase_name", .vstr "  ")]])]

/-- The same phases as `fxApTac`, listed in a different order. -/
def fxApTacPerm : PVal :=
  .vdict [("kill_chain_phases", .vlist
    [.vdict [("kill_chain_name", .vstr "mitre-attack"),
      ("phase_name", .vstr "defense-evasion")],
     .vdict [("kill_chain_name", .vstr "MITRE-ATTACK"),
      ("phase_name", .vstr " privilege-escalation ")],
     .vdict [("kill_chain_name", .vstr "lockheed"), ("phase_name", .vstr "zzz")],
     .vdict [("kill_chain_name", .vstr "mitre-attack"), ("phase_name", .vstr "  ")],
     .vdict [("kill_chain_name", .vstr "mitre-attack"),
      ("phase_name", .vstr "defense-evasion")]])]

/-! ### Basic reduction lemmas -/

@[simp] theorem exceptBind_ok {α β : Type} (a : α) (f : α → Except PyErr β) :
    (Except.ok a >>= f) = f a := rfl

@[simp] theorem exceptBind_err {α β : Type} (e : PyErr) (f : α → Except PyErr β) :
    ((Except.error e : Except PyErr α) >>= f) = .error e := rfl

@[simp] theorem exceptPure_eq_ok {α : Type} (a : α) :
    (pure a : Except PyErr α) = .ok a := rfl

@[simp] theorem pyGet_vdict (kvs : List (String × PVal)) (k : String) :
    pyGet (.vdict kvs) k = .ok (dGet kvs k) := rfl

/-- On falsy-or-string values, `(v or "")` evaluates purely. -/
theorem pyOrEmptyStr_of_strOrFalsy {v : PVal} (h : strOrFalsy v = true) :
    pyOrEmptyStr v = .ok (orEmptyPure v) := by
  cases v <;>
    simp_all [strOrFalsy, pyTruthy, pyOrEmptyStr, orEmptyPure] <;>
    split <;> simp_all

/-- On falsy-or-string values, `(v or "")` under `re.search` evaluates
purely. -/
theorem pyOrEmptyStrForRe_of_strOrFalsy {v : PVal} (h : strOrFalsy v = true) :
    pyOrEmptyStrForRe v = .ok (orEmptyPure v) := by
  cases v <;>
    simp_all [strOrFalsy, pyTruthy, pyOrEmptyStrForRe, orEmptyPure] <;>
    split <;> simp_all

/-- Destructure a well-shaped reference. -/
theorem wellShapedRef_elim {r : PVal} (h : wellShapedRef r = true) :
    ∃ kvs, r = .vdict kvs ∧ strOrFalsy (dGet kvs "source_name") = true ∧
      strOrFalsy (dGet kvs "external_id") = true ∧
      strOrFalsy (dGet kvs "url") = true := by
  cases r <;> simp_all [wellShapedRef]

/-! ### The technique-ID extractor agrees with its pure counterpart -/

/-- On well-shaped references the first loop is the `findSome?` of
`mitreRefHit`. -/
theorem techIdLoop1_eq {refs : List PVal} (h : ∀ r ∈ refs, wellShapedRef r = true) :
    techIdLoop1 refs = .ok (refs.findSome? mitreRefHit) := by
  induction refs with
  | nil => rfl
  | cons ref rest ih =>
    obtain ⟨kvs, rfl, hsn, hei, hurl⟩ := wellShapedRef_elim (h ref (by simp))
    have ihr := ih (fun r hr => h r (by simp [hr]))
    simp only [techIdLoop1, pyGet_vdict, exceptBind_ok,
      pyOrEmptyStr_of_strOrFalsy hsn, List.findSome?_cons]
    by_cases hm : pyLower (orEmptyPure (dGet kvs "source_name")) = "mitre-attack"
    · have hmit : isMitreRef (.vdict kvs) = true := by simp [isMitreRef, hm]
      simp only [hm, if_true, pyOrEmptyStr_of_strOrFalsy hei, exceptBind_ok]
      have hext : (if !strEmpty (pyStrip (orEmptyPure (dGet kvs "external_id"))) then
          match reTechIdMatch (pyStrip (orEmptyPure (dGet kvs "external_id"))) with
          | some g => some (pyUpper g)
          | none => none
        else none) = refExtIdHit (.vdict kvs) := by
        simp [refExtIdHit]
      rw [hext]
      cases hx : refExtIdHit (.vdict kvs) with
      | some v => simp [mitreRefHit, hmit, hx]
      | none =>
        simp only [pyOrEmptyStrForRe_of_strOrFalsy hurl, exceptBind_ok]
        cases hu : reUrlSearch (orEmptyPure (dGet kvs "url")) with
        | none =>
          simp [mitreRefHit, hmit, hx, refUrlHit, hu, ihr]
        | some ts =>
          obtain ⟨tech, sub⟩ := ts
          cases sub <;> simp [mitreRefHit, hmit, hx, refUrlHit, hu]
    · have hmit : isMitreRef (.vdict kvs) = false := by simp [isMitreRef, hm]
      simp [hm, mitreRefHit, hmit, ihr]

/-- On well-shaped references the fallback loop is the `findSome?` of
`refUrlHit`. -/
theorem techIdLoop2_eq {refs : List PVal} (h : ∀ r ∈ refs, wellShapedRef r = true) :
    techIdLoop2 refs = .ok (refs.findSome? refUrlHit) := by
  induction refs with
  | nil => rfl
  | cons ref rest ih =>
    obtain ⟨kvs, rfl, hsn, hei, hurl⟩ := wellShapedRef_elim (h ref (by simp))
    have ihr := ih (fun r hr => h r (by simp [hr]))
    simp only [techIdLoop2, pyGet_vdict, exceptBind_ok,
      pyOrEmptyStrForRe_of_strOrFalsy hurl, List.findSome?_cons]
    cases hu : reUrlSearch (orEmptyPure (dGet kvs "url")) with
    | none => simp only [refUrlHit, hu, ihr]
    | some ts =>
      obtain ⟨tech, sub⟩ := ts
      cases sub <;> simp [refUrlHit, hu]

/-- Destructure a well-shaped-references attack-pattern: it is a dict and
its reference list is well-shaped. -/
theorem listOrFalsy_elim {v : PVal} {p : PVal → Bool} (h : listOrFalsy v p = true) :
    ∃ xs, pyOr v (.vlist []) = .vlist xs ∧ ∀ x ∈ xs, p x = true := by
  simp only [listOrFalsy] at h
  split at h <;> rename_i ht
  · cases hv : v <;> rw [hv] at h ht <;> simp_all [pyOr, List.all_eq_true]
  · exact ⟨[], by simp [pyOr, ht], by simp⟩

theorem wellShapedAPRefs_elim {ap : PVal} (h : wellShapedAPRefs ap = true) :
    ∃ kvs, ap = .vdict kvs ∧ (∀ r ∈ apRefs ap, wellShapedRef r = true) ∧
      pyOr (dGet kvs "external_references") (.vlist []) = .vlist (apRefs ap) := by
  cases ap with
  | vdict kvs =>
    simp only [wellShapedAPRefs] at h
    obtain ⟨xs, hxs, hall⟩ := listOrFalsy_elim h
    have hap : apRefs (.vdict kvs) = xs := by simp [apRefs, hxs]
    exact ⟨kvs, rfl, by rw [hap]; exact hall, by rw [hap]; exact hxs⟩
  | vnone => simp [wellShapedAPRefs] at h
  | vbool b => simp [wellShapedAPRefs] at h
  | vint n => simp [wellShapedAPRefs] at h
  | vstr s => simp [wellShapedAPRefs] at h
  | vlist xs => simp [wellShapedAPRefs] at h
  | vobj attrs => simp [wellShapedAPRefs] at h

/-- On a well-shaped attack-pattern, `_extract_mitre_technique_id` computes
the pure per-entry priority scan `perEntryTechId`. -/
theorem extractMitreTechniqueId_eq {ap : PVal} (h : wellShapedAPRefs ap = true) :
    extractMitreTechniqueId ap = .ok (perEntryTechId (apRefs ap)) := by
  obtain ⟨kvs, rfl, hall, hor⟩ := wellShapedAPRefs_elim h
  simp only [extractMitreTechniqueId, pyGet_vdict, exceptBind_ok, hor, pyIterate,
    exceptBind_ok, techIdLoop1_eq hall, perEntryTechId]
  cases (apRefs (.vdict kvs)).findSome? mitreRefHit with
  | some v => rfl
  | none => simp [techIdLoop2_eq hall]

/-! ### The tactics extractor agrees with its pure counterpart -/

/-- Destructure a well-shaped phase. -/
theorem wellShapedPhase_elim {p : PVal} (h : wellShapedPhase p = true) :
    ∃ kvs, p = .vdict kvs ∧ strOrFalsy (dGet kvs "kill_chain_name") = true ∧
      strOrFalsy (dGet kvs "phase_name") = true := by
  cases p <;> simp_all [wellShapedPhase]

/-- On well-shaped phases the collection loop is the `filterMap` of
`phaseTactic`. -/
theorem tacticsLoop_eq {phases : List PVal}
    (h : ∀ p ∈ phases, wellShapedPhase p = true) :
    tacticsLoop phases = .ok (phases.filterMap phaseTactic) := by
  induction phases with
  | nil => rfl
  | cons p rest ih =>
    obtain ⟨kvs, rfl, hkn, hpn⟩ := wellShapedPhase_elim (h p (by simp))
    have ihr := ih (fun q hq => h q (by simp [hq]))
    simp only [tacticsLoop, pyGet_vdict, exceptBind_ok,
      pyOrEmptyStr_of_strOrFalsy hkn, List.filterMap_cons]
    by_cases hm : pyLower (orEmptyPure (dGet kvs "kill_chain_name")) = "mitre-attack"
    · simp only [hm, if_true, pyOrEmptyStr_of_strOrFalsy hpn, exceptBind_ok]
      by_cases hph : strEmpty (pyStrip (orEmptyPure (dGet kvs "phase_name"))) = true
      · simp [hph, ihr, phaseTactic, hm]
      · simp [hph, ihr, phaseTactic, hm]
    · simp [hm, ihr, phaseTactic]

/-- Destructure a well-shaped-phases attack-pattern. -/
theorem wellShapedAPPhases_elim {ap : PVal} (h : wellShapedAPPhases ap = true) :
    ∃ kvs, ap = .vdict kvs ∧ (∀ p ∈ apPhases ap, wellShapedPhase p = true) ∧
      pyOr (dGet kvs "kill_chain_phases") (.vlist []) = .vlist (apPhases ap) := by
  cases ap with
  | vdict kvs =>
    simp only [wellShapedAPPhases] at h
    obtain ⟨xs, hxs, hall⟩ := listOrFalsy_elim h
    have hap : apPhases (.vdict kvs) = xs := by simp [apPhases, hxs]
    exact ⟨kvs, rfl, by rw [hap]; exact hall, by rw [hap]; exact hxs⟩
  | vnone => simp [wellShapedAPPhases] at h
  | vbool b => simp [wellShapedAPPhases] at h
  | vint n => simp [wellShapedAPPhases] at h
  | vstr s => simp [wellShapedAPPhases] at h
  | vlist xs => simp [wellShapedAPPhases] at h
  | vobj attrs => simp [wellShapedAPPhases] at h

/-- On a well-shaped attack-pattern, `_extract_mitre_tactics` computes the
sorted dedup of the pure phase contributions. -/
theorem extractMitreTactics_eq {ap : PVal} (h : wellShapedAPPhases ap = true) :
    extractMitreTactics ap =
      .ok (sortStrings ((apPhases ap).filterMap phaseTactic).dedup) := by
  obtain ⟨kvs, rfl, hall, hor⟩ := wellShapedAPPhases_elim h
  simp [extractMitreTactics, hor, pyIterate, tacticsLoop_eq hall]

/-! ### The string sort: permutation, sortedness, antisymmetry -/

theorem insertStr_perm (x : String) (l : List String) :
    List.Perm (insertStr x l) (x :: l) := by
  induction l with
  | nil => rfl
  | cons y ys ih =>
    simp only [insertStr]
    split
    · rfl
    · exact ((ih.cons y).trans (List.Perm.swap x y ys))

theorem sortStrings_perm (l : List String) : List.Perm (sortStrings l) l := by
  induction l with
  | nil => rfl
  | cons x xs ih => exact (insertStr_perm x (sortStrings xs)).trans (ih.cons x)

theorem charListLe_total (a b : List Char) :
    charListLe a b = true ∨ charListLe b a = true := by
  induction a generalizing b with
  | nil => left; rfl
  | cons c cs ih =>
    cases b with
    | nil => right; rfl
    | cons d ds =>
      by_cases hcd : c = d
      · subst hcd
        simpa [charListLe] using ih ds
      · have hdc : ¬d = c := fun hh => hcd hh.symm
        rcases lt_or_gt_of_ne hcd with hlt | hgt
        · left; simp [charListLe, hcd, hlt]
        · right; simp [charListLe, hdc, hgt]

theorem strLe_total (a b : String) : strLe a b ∨ strLe b a :=
  charListLe_total a.data b.data

theorem charListLe_antisymm {a b : List Char} (hab : charListLe a b = true)
    (hba : charListLe b a = true) : a = b := by
  induction a generalizing b with
  | nil =>
    cases b with
    | nil => rfl
    | cons d ds => simp [charListLe] at hba
  | cons c cs ih =>
    cases b with
    | nil => simp [charListLe] at hab
    | cons d ds =>
      by_cases hcd : c = d
      · subst hcd
        simp only [charListLe, if_pos rfl] at hab hba
        exact congrArg (c :: ·) (ih hab hba)
      · have hdc : ¬d = c := fun hh => hcd hh.symm
        simp only [charListLe, if_neg hcd, decide_eq_true_eq] at hab
        simp only [charListLe, if_neg hdc, decide_eq_true_eq] at hba
        exact absurd hba (lt_asymm hab)

theorem strLe_antisymm {a b : String} (hab : strLe a b) (hba : strLe b a) :
    a = b := by
  cases a; cases b
  exact congrArg String.mk (charListLe_antisymm hab hba)

theorem charListLe_trans {a b c : List Char} (hab : charListLe a b = true)
    (hbc : charListLe b c = true) : charListLe a c = true := by
  induction a generalizing b c with
  | nil => rfl
  | cons x xs ih =>
    cases b with
    | nil => simp [charListLe] at hab
    | cons y ys =>
      cases c with
      | nil => simp [charListLe] at hbc
      | cons z zs =>
        by_cases hxy : x = y <;> by_cases hyz : y = z
        · subst hxy; subst hyz
          simp only [charListLe, if_pos rfl] at hab hbc ⊢
          exact ih hab hbc
        · subst hxy
          simp only [charListLe, if_pos rfl, if_neg hyz, decide_eq_true_eq] at hbc ⊢
          simp [if_neg hyz, hbc]
        · subst hyz
          simp only [charListLe, if_neg hxy, decide_eq_true_eq] at hab
          simp [charListLe, if_neg hxy, hab]
        · simp only [charListLe, if_neg hxy, if_neg hyz, decide_eq_true_eq] at hab hbc
          have hxz : x < z := lt_trans hab hbc
          have hne : x ≠ z := ne_of_lt hxz
          simp [charListLe, if_neg hne, hxz]

theorem strLe_trans {a b c : String} (hab : strLe a b) (hbc : strLe b c) :
    strLe a c :=
  charListLe_trans hab hbc

theorem sorted_insertStr {x : String} {l : List String}
    (h : List.Sorted strLe l) : List.Sorted strLe (insertStr x l) := by
  induction l with
  | nil => simp [insertStr, List.Sorted]
  | cons y ys ih =>
    rw [List.sorted_cons] at h
    obtain ⟨hy, hys⟩ := h
    simp only [insertStr]
    split <;> rename_i hxy
    · refine List.sorted_cons.mpr ⟨?_, List.sorted_cons.mpr ⟨hy, hys⟩⟩
      intro b hb
      rcases List.mem_cons.mp hb with rfl | hb2
      · exact hxy
      · exact strLe_trans hxy (hy b hb2)
    · refine List.sorted_cons.mpr ⟨?_, ih hys⟩
      intro b hb
      rcases List.mem_cons.mp ((insertStr_perm x ys).mem_iff.mp hb) with rfl | hb2
      · rcases strLe_total b y with h1 | h2
        · have hbf : strLeB b y = false := by simpa using hxy
          exact absurd h1 (by simp [strLe, hbf])
        · exact h2
      · exact hy b hb2

theorem sorted_sortStrings (l : List String) : List.Sorted strLe (sortStrings l) := by
  induction l with
  | nil => simp [sortStrings, List.Sorted]
  | cons x xs ih => exact sorted_insertStr ih

/-! ### The matcher agrees with its pure counterpart -/

/-- Every record the matcher emits has the normalized five-field shape. -/
theorem normalizedAbilityShape_normAbility (a : PVal) :
    normalizedAbilityShape (normAbility a) = true := rfl

/-- The `tactic` of the normalized record is the `tactic` read off the
source record. -/
theorem getKey_normAbility_tactic (a : PVal) :
    getKey (normAbility a) "tactic" = abilityTacticRaw a := rfl

/-- The normalized record passes through the tactic filter without raising
whenever the source's `tactic` is hashable. -/
theorem filterableAbility_normAbility (a : PVal) :
    filterableAbility (normAbility a) = hashable (abilityTacticRaw a) := rfl

/-- On a store of falsy-or-string `attack_id`s the matching loop is a pure
filter-and-normalize. -/
theorem findLoop_eq {store : List PVal} {tid : String}
    (h : ∀ a ∈ store, strOrFalsy (abilityAttackIdRaw a) = true) :
    findLoop tid store = .ok ((store.filter (attackMatchB tid)).map normAbility) := by
  induction store with
  | nil => rfl
  | cons a rest ih =>
    have ihr := ih (fun x hx => h x (by simp [hx]))
    simp only [findLoop, pyOrEmptyStr_of_strOrFalsy (h a (by simp)), exceptBind_ok,
      ihr, List.filter_cons]
    by_cases hm : pyUpper (orEmptyPure (abilityAttackIdRaw a)) = pyUpper tid
    · simp [hm, attackMatchB]
    · simp [hm, attackMatchB]

/-- Same statement for the full store query. -/
theorem findAbilitiesForAttackId_eq {store : List PVal} {tid : String}
    (h : ∀ a ∈ store, strOrFalsy (abilityAttackIdRaw a) = true) :
    findAbilitiesForAttackId store tid =
      .ok ((store.filter (attackMatchB tid)).map normAbility) :=
  findLoop_eq h

/-- On dict-shaped, hashable-`tactic` records the filter comprehension is a
pure `List.filter`. -/
theorem filterLoop_eq {ts : List String} {abilities : List PVal}
    (h : ∀ a ∈ abilities, filterableAbility a = true) :
    filterLoop ts abilities = .ok (abilities.filter (tacticMemB ts)) := by
  induction abilities with
  | nil => rfl
  | cons a rest ih =>
    have ihr := ih (fun x hx => h x (by simp [hx]))
    have ha := h a (by simp)
    cases a with
    | vdict kvs =>
      simp only [filterableAbility] at ha
      simp only [filterLoop, pyGet_vdict, exceptBind_ok, List.filter_cons]
      cases htac : dGet kvs "tactic" with
      | vlist xs => rw [htac] at ha; simp [hashable] at ha
      | vdict kvs2 => rw [htac] at ha; simp [hashable] at ha
      | vstr s => simp only [htac, ihr, tacticMemB, exceptBind_ok]; split <;> simp
      | vnone => simp [htac, ihr, tacticMemB]
      | vbool b => simp [htac, ihr, tacticMemB]
      | vint n => simp [htac, ihr, tacticMemB]
      | vobj attrs => simp [htac, ihr, tacticMemB]
    | vnone => simp [filterableAbility] at ha
    | vbool b => simp [filterableAbility] at ha
    | vint n => simp [filterableAbility] at ha
    | vstr s => simp [filterableAbility] at ha
    | vlist xs => simp [filterableAbility] at ha
    | vobj attrs => simp [filterableAbility] at ha

/-- When any of the three conditions fails, the abilities list is returned
unchanged, without touching its elements. -/
theorem applyTacticFilter_noop {filt : Bool} {tactics : List String}
    {abilities : List PVal}
    (h : filt = false ∨ tactics = [] ∨ abilities = []) :
    applyTacticFilter filt tactics abilities = .ok abilities := by
  rcases h with h | h | h <;> simp [applyTacticFilter, h]

/-- When all three conditions hold, the filter runs and computes the pure
`List.filter` of the tactic-membership predicate. -/
theorem applyTacticFilter_run {filt : Bool} {tactics : List String}
    {abilities : List PVal} (hf : filt = true) (ht : tactics ≠ [])
    (ha : abilities ≠ []) (hall : ∀ a ∈ abilities, filterableAbility a = true) :
    applyTacticFilter filt tactics abilities =
      .ok (abilities.filter (tacticMemB tactics)) := by
  subst hf
  have h1 : tactics.isEmpty = false := by simpa [List.isEmpty_iff] using ht
  have h2 : abilities.isEmpty = false := by simpa [List.isEmpty_iff] using ha
  simp only [applyTacticFilter, h1, h2, Bool.not_false, Bool.and_true, Bool.true_and,
    if_true]
  exact filterLoop_eq hall

/-- The filter step never raises on filterable elements. -/
theorem applyTacticFilter_ok {f : Bool} {ts : List String} {abilities : List PVal}
    (hall : ∀ a ∈ abilities, filterableAbility a = true) :
    ∃ res, applyTacticFilter f ts abilities = .ok res := by
  unfold applyTacticFilter
  split
  · exact ⟨_, filterLoop_eq hall⟩
  · exact ⟨_, rfl⟩

/-! ### Success of the pipeline on well-shaped inputs -/

theorem wellShapedAbility_parts {a : PVal} (h : wellShapedAbility a = true) :
    strOrFalsy (abilityAttackIdRaw a) = true ∧ hashable (abilityTacticRaw a) = true := by
  simpa [wellShapedAbility] using h

/-- What the matcher returns over a well-shaped store is filterable. -/
theorem findResult_filterable {store : List PVal} {tid : String} {res : List PVal}
    (hstore : ∀ a ∈ store, wellShapedAbility a = true)
    (h : findAbilitiesForAttackId store tid = .ok res) :
    ∀ m ∈ res, filterableAbility m = true := by
  rw [findAbilitiesForAttackId_eq
    (fun a ha => (wellShapedAbility_parts (hstore a ha)).1)] at h
  injection h with h
  subst h
  intro m hm
  obtain ⟨a, ha, rfl⟩ := List.mem_map.mp hm
  rw [filterableAbility_normAbility]
  exact (wellShapedAbility_parts (hstore a (List.mem_of_mem_filter ha))).2

/-- The lookup (with fallback) never raises over a well-shaped store, and
yields filterable abilities. -/
theorem abilityLookup_ok {store : List PVal} {tid : String} {fb : Bool}
    (hstore : ∀ a ∈ store, wellShapedAbility a = true) :
    ∃ abs par qs, abilityLookup store tid fb = .ok (abs, par, qs) ∧
      ∀ m ∈ abs, filterableAbility m = true := by
  have hids := fun a ha => (wellShapedAbility_parts (hstore a ha)).1
  unfold abilityLookup
  rw [findAbilitiesForAttackId_eq hids]
  simp only [exceptBind_ok]
  split
  · rw [findAbilitiesForAttackId_eq hids]
    simp only [exceptBind_ok, exceptPure_eq_ok]
    exact ⟨_, _, _, rfl, findResult_filterable hstore (findAbilitiesForAttackId_eq hids)⟩
  · exact ⟨_, _, _, rfl, findResult_filterable hstore (findAbilitiesForAttackId_eq hids)⟩

theorem wellShapedAP_parts {ap : PVal} (h : wellShapedAP ap = true) :
    wellShapedAPRefs ap = true ∧ wellShapedAPPhases ap = true := by
  simpa [wellShapedAP] using h

/-- One main-loop iteration never raises on a well-shaped attack-pattern and
a well-shaped store. -/
theorem processAP_ok {store : List PVal} {fb ft : Bool} {ap : PVal}
    (hap : wellShapedAP ap = true)
    (hstore : ∀ a ∈ store, wellShapedAbility a = true) :
    ∃ out, processAP store fb ft ap = .ok out := by
  obtain ⟨hrefs, hphases⟩ := wellShapedAP_parts hap
  obtain ⟨kvs, rfl, -, -⟩ := wellShapedAPRefs_elim hrefs
  unfold processAP
  rw [extractMitreTactics_eq hphases, extractMitreTechniqueId_eq hrefs]
  simp only [pyGet_vdict, exceptBind_ok]
  cases perEntryTechId (apRefs (.vdict kvs)) with
  | none => exact ⟨_, rfl⟩
  | some tid =>
    simp only []
    by_cases hemp : strEmpty tid = true
    · simp only [hemp, if_true]
      exact ⟨_, rfl⟩
    · simp only [Bool.not_eq_true] at hemp
      simp only [hemp, Bool.false_eq_true, if_false]
      obtain ⟨abs, par, qs, hlk, hfil⟩ := @abilityLookup_ok store tid fb hstore
      rw [hlk]
      simp only [exceptBind_ok]
      obtain ⟨res, hres⟩ := @applyTacticFilter_ok ft _ _ hfil
      rw [hres]
      simp only [exceptBind_ok, exceptPure_eq_ok]
      exact ⟨_, rfl⟩

/-- The main loop never raises on well-shaped attack-patterns and a
well-shaped store. -/
theorem processLoop_ok {store : List PVal} {fb ft : Bool} {aps : List PVal}
    (haps : ∀ ap ∈ aps, wellShapedAP ap = true)
    (hstore : ∀ a ∈ store, wellShapedAbility a = true) :
    ∃ out, processLoop store fb ft aps = .ok out := by
  induction aps with
  | nil => exact ⟨_, rfl⟩
  | cons ap rest ih =>
    obtain ⟨⟨m, w, c, q⟩, hap⟩ :=
      @processAP_ok store fb ft ap (haps ap (by simp)) hstore
    obtain ⟨⟨ms, ws, cs⟩, hrest⟩ := ih (fun x hx => haps x (by simp [hx]))
    refine ⟨(m :: ms, w + ws, c + cs), ?_⟩
    simp only [processLoop, hap, hrest, exceptBind_ok, exceptPure_eq_ok]

/-- On a list of dicts the comprehension keeps exactly the objects whose
`type` is `"attack-pattern"`. -/
theorem filterAttackPatterns_eq {objs : List PVal}
    (h : ∀ o ∈ objs, ∃ kvs, o = .vdict kvs) :
    filterAttackPatterns objs = .ok (objs.filter isAttackPatternObj) := by
  induction objs with
  | nil => rfl
  | cons o rest ih =>
    obtain ⟨kvs, rfl⟩ := h o (by simp)
    have ihr := ih (fun x hx => h x (by simp [hx]))
    simp only [filterAttackPatterns, pyGet_vdict, exceptBind_ok, ihr, List.filter_cons]
    by_cases hty : pyEqStr (dGet kvs "type") "attack-pattern" = true
    · simp [hty, isAttackPatternObj]
    · simp only [Bool.not_eq_true] at hty
      simp [hty, isAttackPatternObj]

theorem wellShapedObj_dict {o : PVal} (h : wellShapedObj o = true) :
    ∃ kvs, o = .vdict kvs := by
  cases o <;> simp_all [wellShapedObj]

theorem wellShapedObj_ap {o : PVal} (h : wellShapedObj o = true)
    (hap : isAttackPatternObj o = true) : wellShapedAP o = true := by
  cases o <;> simp_all [wellShapedObj, isAttackPatternObj]

/-- Destructure a well-shaped bundle. -/
theorem wellShapedBundle_elim {b : PVal} (h : wellShapedBundle b = true) :
    ∃ kvs, b = .vdict kvs ∧ pyEqStr (dGet kvs "type") "bundle" = true ∧
      pyOr (dGet kvs "objects") (.vlist []) = .vlist (bundleObjs b) ∧
      ∀ o ∈ bundleObjs b, wellShapedObj o = true := by
  cases b with
  | vdict kvs =>
    simp only [wellShapedBundle, Bool.and_eq_true] at h
    obtain ⟨hty, hobj⟩ := h
    obtain ⟨xs, hxs, hall⟩ := listOrFalsy_elim hobj
    have hb : bundleObjs (.vdict kvs) = xs := by simp [bundleObjs, hxs]
    exact ⟨kvs, rfl, hty, by rw [hb]; exact hxs, by rw [hb]; exact hall⟩
  | vnone => simp [wellShapedBundle] at h
  | vbool b => simp [wellShapedBundle] at h
  | vint n => simp [wellShapedBundle] at h
  | vstr s => simp [wellShapedBundle] at h
  | vlist xs => simp [wellShapedBundle] at h
  | vobj attrs => simp [wellShapedBundle] at h

/-- The whole service never raises on a well-shaped bundle and store. -/
theorem matchStixToAbilities_ok {store : List PVal} {b : PVal} {fb ft : Bool}
    (hb : wellShapedBundle b = true)
    (hstore : ∀ a ∈ store, wellShapedAbility a = true) :
    ∃ out, matchStixToAbilities store b fb ft = .ok out := by
  obtain ⟨kvs, rfl, hty, hor, hobjs⟩ := wellShapedBundle_elim hb
  simp only [matchStixToAbilities, hty, if_true, hor]
  simp only [pyIterate, exceptBind_ok]
  rw [filterAttackPatterns_eq (fun o ho => wellShapedObj_dict (hobjs o ho))]
  simp only [exceptBind_ok]
  have haps : ∀ ap ∈ (bundleObjs (.vdict kvs)).filter isAttackPatternObj,
      wellShapedAP ap = true := by
    intro ap hap
    exact wellShapedObj_ap (hobjs ap (List.mem_of_mem_filter hap))
      (List.of_mem_filter hap)
  obtain ⟨⟨ms, ws, cs⟩, hloop⟩ := @processLoop_ok store fb ft _ haps hstore
  rw [hloop]
  exact ⟨_, rfl⟩

/-! ### No code path past the bundle check raises a `ValueError`

The only `raise ValueError` in the service is the bundle validation; every
later failure is an `AttributeError` or `TypeError` of the Python runtime. -/

theorem nonVE_ok {α : Type} (a : α) : NonVE (Except.ok a : Except PyErr α) := by
  intro msg h
  exact Except.noConfusion h

theorem nonVE_attr {α : Type} (m : String) :
    NonVE (Except.error (PyErr.attributeError m) : Except PyErr α) := by
  intro msg h
  injection h with h
  exact PyErr.noConfusion h

theorem nonVE_type {α : Type} (m : String) :
    NonVE (Except.error (PyErr.typeError m) : Except PyErr α) := by
  intro msg h
  injection h with h
  exact PyErr.noConfusion h

theorem nonVE_bind {α β : Type} {e : Except PyErr α} {f : α → Except PyErr β}
    (he : NonVE e) (hf : ∀ a, NonVE (f a)) : NonVE (e >>= f) := by
  cases e with
  | ok a => exact hf a
  | error er =>
    intro msg h
    have h2 : (Except.error er : Except PyErr β) = Except.error (.valueError msg) := h
    injection h2 with h3
    exact he msg (by rw [h3])

theorem nonVE_pyGet (v : PVal) (k : String) : NonVE (pyGet v k) := by
  cases v <;> first
    | exact nonVE_ok _
    | exact nonVE_attr _

theorem nonVE_pyOrEmptyStr (v : PVal) : NonVE (pyOrEmptyStr v) := by
  unfold pyOrEmptyStr
  split
  · cases v <;> first
      | exact nonVE_ok _
      | exact nonVE_attr _
  · exact nonVE_ok _

theorem nonVE_pyOrEmptyStrForRe (v : PVal) : NonVE (pyOrEmptyStrForRe v) := by
  unfold pyOrEmptyStrForRe
  split
  · cases v <;> first
      | exact nonVE_ok _
      | exact nonVE_type _
  · exact nonVE_ok _

theorem nonVE_pyIterate (v : PVal) : NonVE (pyIterate v) := by
  cases v <;> first
    | exact nonVE_ok _
    | exact nonVE_type _

theorem nonVE_techIdLoop1 (refs : List PVal) : NonVE (techIdLoop1 refs) := by
  induction refs with
  | nil => exact nonVE_ok _
  | cons ref rest ih =>
    simp only [techIdLoop1]
    refine nonVE_bind (nonVE_pyGet _ _) fun snV => ?_
    refine nonVE_bind (nonVE_pyOrEmptyStr _) fun sn => ?_
    split
    · refine nonVE_bind (nonVE_pyGet _ _) fun eiV => ?_
      refine nonVE_bind (nonVE_pyOrEmptyStr _) fun ei => ?_
      split
      · exact nonVE_ok _
      · refine nonVE_bind (nonVE_pyGet _ _) fun urlV => ?_
        refine nonVE_bind (nonVE_pyOrEmptyStrForRe _) fun url => ?_
        split
        · split
          · exact nonVE_ok _
          · exact nonVE_ok _
        · exact ih
    · exact ih

theorem nonVE_techIdLoop2 (refs : List PVal) : NonVE (techIdLoop2 refs) := by
  induction refs with
  | nil => exact nonVE_ok _
  | cons ref rest ih =>
    simp only [techIdLoop2]
    refine nonVE_bind (nonVE_pyGet _ _) fun urlV => ?_
    refine nonVE_bind (nonVE_pyOrEmptyStrForRe _) fun url => ?_
    split
    · split
      · exact nonVE_ok _
      · exact nonVE_ok _
    · exact ih

theorem nonVE_extractMitreTechniqueId (ap : PVal) :
    NonVE (extractMitreTechniqueId ap) := by
  simp only [extractMitreTechniqueId]
  refine nonVE_bind (nonVE_pyGet _ _) fun refsV => ?_
  refine nonVE_bind (nonVE_pyIterate _) fun refs => ?_
  refine nonVE_bind (nonVE_techIdLoop1 _) fun o => ?_
  cases o
  · exact nonVE_techIdLoop2 _
  · exact nonVE_ok _

theorem nonVE_tacticsLoop (phases : List PVal) : NonVE (tacticsLoop phases) := by
  induction phases with
  | nil => exact nonVE_ok _
  | cons p rest ih =>
    simp only [tacticsLoop]
    refine nonVE_bind (nonVE_pyGet _ _) fun knV => ?_
    refine nonVE_bind (nonVE_pyOrEmptyStr _) fun kn => ?_
    split
    · refine nonVE_bind (nonVE_pyGet _ _) fun pnV => ?_
      refine nonVE_bind (nonVE_pyOrEmptyStr _) fun pn => ?_
      split
      · exact nonVE_bind (nonVE_ok _) fun y => nonVE_bind ih fun tail => nonVE_ok _
      · exact nonVE_bind (nonVE_ok _) fun y => nonVE_bind ih fun tail => nonVE_ok _
    · exact nonVE_bind (nonVE_ok _) fun y => nonVE_bind ih fun tail => nonVE_ok _

theorem nonVE_extractMitreTactics (ap : PVal) : NonVE (extractMitreTactics ap) := by
  simp only [extractMitreTactics]
  refine nonVE_bind (nonVE_pyGet _ _) fun phV => ?_
  refine nonVE_bind (nonVE_pyIterate _) fun phases => ?_
  exact nonVE_bind (nonVE_tacticsLoop _) fun collected => nonVE_ok _

theorem nonVE_findLoop (tid : String) (store : List PVal) :
    NonVE (findLoop tid store) := by
  induction store with
  | nil => exact nonVE_ok _
  | cons a rest ih =>
    simp only [findLoop]
    refine nonVE_bind (nonVE_pyOrEmptyStr _) fun aidS => ?_
    refine nonVE_bind ih fun tail => ?_
    split
    · exact nonVE_ok _
    · exact nonVE_ok _

theorem nonVE_filterLoop (ts : List String) (abilities : List PVal) :
    NonVE (filterLoop ts abilities) := by
  induction abilities with
  | nil => exact nonVE_ok _
  | cons a rest ih =>
    simp only [filterLoop]
    refine nonVE_bind (nonVE_pyGet _ _) fun tV => ?_
    have hrest : ∀ y : Bool,
        NonVE (filterLoop ts rest >>= fun tail =>
          if y = true then pure (a :: tail) else pure tail) := by
      intro y
      refine nonVE_bind ih fun tail => ?_
      split
      · exact nonVE_ok _
      · exact nonVE_ok _
    cases tV <;> first
      | exact nonVE_bind (nonVE_ok _) fun y => hrest y
      | exact nonVE_bind (nonVE_type _) fun y => hrest y

theorem nonVE_applyTacticFilter (f : Bool) (ts : List String)
    (abilities : List PVal) : NonVE (applyTacticFilter f ts abilities) := by
  unfold applyTacticFilter
  split
  · exact nonVE_filterLoop _ _
  · exact nonVE_ok _

theorem nonVE_abilityLookup (store : List PVal) (tid : String) (fb : Bool) :
    NonVE (abilityLookup store tid fb) := by
  simp only [abilityLookup]
  refine nonVE_bind (nonVE_findLoop _ _) fun abilities => ?_
  split
  · exact nonVE_bind (nonVE_findLoop _ _) fun abilities2 => nonVE_ok _
  · exact nonVE_ok _

theorem nonVE_processAP (store : List PVal) (fb ft : Bool) (ap : PVal) :
    NonVE (processAP store fb ft ap) := by
  simp only [processAP]
  refine nonVE_bind (nonVE_pyGet _ _) fun apId => ?_
  refine nonVE_bind (nonVE_pyGet _ _) fun apName => ?_
  refine nonVE_bind (nonVE_extractMitreTactics _) fun tactics => ?_
  refine nonVE_bind (nonVE_extractMitreTechniqueId _) fun techO => ?_
  split
  · split
    · exact nonVE_ok _
    · refine nonVE_bind (nonVE_abilityLookup _ _ _) fun triple => ?_
      exact nonVE_bind (nonVE_applyTacticFilter _ _ _) fun abilities2 => nonVE_ok _
  · exact nonVE_ok _

theorem nonVE_processLoop (store : List PVal) (fb ft : Bool) (aps : List PVal) :
    NonVE (processLoop store fb ft aps) := by
  induction aps with
  | nil => exact nonVE_ok _
  | cons ap rest ih =>
    simp only [processLoop]
    refine nonVE_bind (nonVE_processAP _ _ _ _) fun quad => ?_
    obtain ⟨m, w, c, q⟩ := quad
    refine nonVE_bind ih fun triple => ?_
    obtain ⟨ms, ws, cs⟩ := triple
    exact nonVE_ok _

theorem nonVE_filterAttackPatterns (objs : List PVal) :
    NonVE (filterAttackPatterns objs) := by
  induction objs with
  | nil => exact nonVE_ok _
  | cons o rest ih =>
    simp only [filterAttackPatterns]
    refine nonVE_bind (nonVE_pyGet _ _) fun t => ?_
    refine nonVE_bind ih fun tail => ?_
    split
    · exact nonVE_ok _
    · exact nonVE_ok _

/-- The service raises a `ValueError` — the `InvalidBundle` rejection —
exactly on the inputs that are not bundle-shaped dicts. -/
theorem matchStix_valueError_iff (store : List PVal) (b : PVal) (fb ft : Bool) :
    (∃ msg, matchStixToAbilities store b fb ft = .error (.valueError msg)) ↔
      bundleShaped b = false := by
  constructor
  · rintro ⟨msg, hmsg⟩
    by_contra hb
    simp only [Bool.not_eq_false] at hb
    cases b with
    | vdict kvs =>
      simp only [bundleShaped] at hb
      simp only [matchStixToAbilities, hb, if_true] at hmsg
      have : NonVE (matchStixToAbilities store (.vdict kvs) fb ft) := by
        simp only [matchStixToAbilities, hb, if_true]
        refine nonVE_bind (nonVE_pyIterate _) fun objs => ?_
        refine nonVE_bind (nonVE_filterAttackPatterns _) fun aps => ?_
        refine nonVE_bind (nonVE_processLoop _ _ _ _) fun triple => ?_
        obtain ⟨ms, ws, cs⟩ := triple
        exact nonVE_ok _
      exact this msg (by simp only [matchStixToAbilities, hb, if_true]; exact hmsg)
    | vnone => simp [bundleShaped] at hb
    | vbool x => simp [bundleShaped] at hb
    | vint x => simp [bundleShaped] at hb
    | vstr x => simp [bundleShaped] at hb
    | vlist x => simp [bundleShaped] at hb
    | vobj x => simp [bundleShaped] at hb
  · intro hb
    refine ⟨invalidBundleMsg, ?_⟩
    cases b with
    | vdict kvs =>
      simp only [bundleShaped] at hb
      simp [matchStixToAbilities, hb]
    | vnone => rfl
    | vbool x => rfl
    | vint x => rfl
    | vstr x => rfl
    | vlist x => rfl
    | vobj x => rfl

/-! ### Keys of the emitted mapping records -/

theorem getKey_mkMapping_techId (i n : PVal) (tid : String) (par : Option String)
    (ts : List String) (abs : List PVal) :
    getKey (mkMapping i n tid par ts abs) "technique_id" = .vstr tid := rfl

theorem getKey_mkMapping_abilities (i n : PVal) (tid : String) (par : Option String)
    (ts : List String) (abs : List PVal) :
    getKey (mkMapping i n tid par ts abs) "abilities" = .vlist abs := by
  cases par with
  | none => rfl
  | some p =>
    cases hp : strEmpty p <;>
      simp [mkMapping, getKey, dGet, lookupKey, hp]

theorem hasKeyB_mkMapping_parent_none (i n : PVal) (tid : String)
    (ts : List String) (abs : List PVal) :
    hasKeyB (mkMapping i n tid none ts abs) "parent_technique_id" = false := rfl

theorem getKey_mkMapping_parent_some (i n : PVal) (tid : String) (p : String)
    (hp : strEmpty p = false) (ts : List String) (abs : List PVal) :
    getKey (mkMapping i n tid (some p) ts abs) "parent_technique_id" = .vstr p ∧
      hasKeyB (mkMapping i n tid (some p) ts abs) "parent_technique_id" = true := by
  constructor <;> simp [mkMapping, getKey, hasKeyB, dGet, lookupKey, hp]

theorem getKey_mkMappingNoTech_techId (i n : PVal) (ts : List String) :
    getKey (mkMappingNoTech i n ts) "technique_id" = .vnone := rfl

theorem getKey_mkMappingNoTech_abilities (i n : PVal) (ts : List String) :
    getKey (mkMappingNoTech i n ts) "abilities" = .vlist [] := rfl

theorem hasKeyB_mkMappingNoTech_parent (i n : PVal) (ts : List String) :
    hasKeyB (mkMappingNoTech i n ts) "parent_technique_id" = false := rfl

/-! ### Stats invariants of the main loop -/

/-- Whatever one iteration returns, the `ap_with_tech` increment is 1 exactly
when the emitted mapping has a non-null `technique_id`, and the
`total_abilities` increment is the length of its `abilities`. -/
theorem processAP_stats {store : List PVal} {fb ft : Bool} {ap m : PVal}
    {w c : Nat} {q : List String}
    (h : processAP store fb ft ap = .ok (m, w, c, q)) :
    w = (if hasTechB m then 1 else 0) ∧ c = abilitiesLen m := by
  simp only [processAP] at h
  rcases hid : pyGet ap "id" with e | apId <;> rw [hid] at h
  · simp at h
  simp only [exceptBind_ok] at h
  rcases hnm : pyGet ap "name" with e | apName <;> rw [hnm] at h
  · simp at h
  simp only [exceptBind_ok] at h
  rcases hta : extractMitreTactics ap with e | ts <;> rw [hta] at h
  · simp at h
  simp only [exceptBind_ok] at h
  rcases hti : extractMitreTechniqueId ap with e | techO <;> rw [hti] at h
  · simp at h
  simp only [exceptBind_ok] at h
  cases techO with
  | none =>
    simp only [exceptPure_eq_ok, Except.ok.injEq, Prod.mk.injEq] at h
    obtain ⟨rfl, rfl, rfl, rfl⟩ := h
    simp [hasTechB, getKey_mkMappingNoTech_techId, PVal.isNone, abilitiesLen,
      getKey_mkMappingNoTech_abilities]
  | some tid =>
    by_cases hemp : strEmpty tid = true
    · simp only [hemp, if_true, exceptPure_eq_ok, Except.ok.injEq, Prod.mk.injEq] at h
      obtain ⟨rfl, rfl, rfl, rfl⟩ := h
      simp [hasTechB, getKey_mkMappingNoTech_techId, PVal.isNone, abilitiesLen,
        getKey_mkMappingNoTech_abilities]
    · simp only [Bool.not_eq_true] at hemp
      simp only [hemp, Bool.false_eq_true, if_false] at h
      rcases hlk : abilityLookup store tid fb with e | triple <;> rw [hlk] at h
      · simp at h
      obtain ⟨abs, par, qs⟩ := triple
      simp only [exceptBind_ok] at h
      rcases hfl : applyTacticFilter ft ts abs with e | abs2 <;> rw [hfl] at h
      · simp at h
      simp only [exceptBind_ok, exceptPure_eq_ok, Except.ok.injEq, Prod.mk.injEq] at h
      obtain ⟨rfl, rfl, rfl, rfl⟩ := h
      simp [hasTechB, getKey_mkMapping_techId, PVal.isNone, abilitiesLen,
        getKey_mkMapping_abilities]

/-- The loop's counters aggregate exactly what its emitted mappings show:
one mapping per attack-pattern, `with_technique` counts the non-null
`technique_id`s, `abilities_found` sums the abilities lengths. -/
theorem processLoop_stats {store : List PVal} {fb ft : Bool} {aps ms : List PVal}
    {w c : Nat} (h : processLoop store fb ft aps = .ok (ms, w, c)) :
    ms.length = aps.length ∧ w = ms.countP hasTechB ∧
      c = (ms.map abilitiesLen).sum := by
  induction aps generalizing ms w c with
  | nil =>
    simp only [processLoop, Except.ok.injEq, Prod.mk.injEq] at h
    obtain ⟨rfl, rfl, rfl⟩ := h
    simp
  | cons ap rest ih =>
    simp only [processLoop] at h
    rcases hap : processAP store fb ft ap with e | quad <;> rw [hap] at h
    · simp at h
    obtain ⟨m, w1, c1, q⟩ := quad
    simp only [exceptBind_ok] at h
    rcases hrest : processLoop store fb ft rest with e | triple <;> rw [hrest] at h
    · simp at h
    obtain ⟨ms2, ws, cs⟩ := triple
    simp only [exceptBind_ok, exceptPure_eq_ok, Except.ok.injEq, Prod.mk.injEq] at h
    obtain ⟨rfl, rfl, rfl⟩ := h
    obtain ⟨hlen, hw, hc⟩ := ih hrest
    obtain ⟨hw1, hc1⟩ := processAP_stats hap
    refine ⟨by simp [hlen], ?_, ?_⟩
    · simp [List.countP_cons, hw, hw1]
      cases hasTechB m <;> simp [Nat.add_comm]
    · simp [hc, hc1, Nat.add_comm]

/-- Whenever the comprehension over the objects succeeds, it returns exactly
the dict-shaped objects whose `type` equals `"attack-pattern"`. -/
theorem filterAttackPatterns_ok_eq {objs aps : List PVal}
    (h : filterAttackPatterns objs = .ok aps) :
    aps = objs.filter isAttackPatternObj := by
  induction objs generalizing aps with
  | nil =>
    simp only [filterAttackPatterns, Except.ok.injEq] at h
    simp [← h]
  | cons o rest ih =>
    simp only [filterAttackPatterns] at h
    rcases hty : pyGet o "type" with e | t <;> rw [hty] at h
    · simp at h
    simp only [exceptBind_ok] at h
    rcases hrest : filterAttackPatterns rest with e | aps2 <;> rw [hrest] at h
    · simp at h
    simp only [exceptBind_ok] at h
    have ho : ∃ kvs, o = .vdict kvs ∧ t = dGet kvs "type" := by
      cases o <;> simp_all [pyGet]
    obtain ⟨kvs, rfl, rfl⟩ := ho
    rw [List.filter_cons]
    by_cases hm : pyEqStr (dGet kvs "type") "attack-pattern" = true
    · simp only [hm, if_true, exceptPure_eq_ok, Except.ok.injEq] at h
      simp [← h, isAttackPatternObj, hm, ih hrest]
    · simp only [Bool.not_eq_true] at hm
      simp only [hm, Bool.false_eq_true, if_false, exceptPure_eq_ok,
        Except.ok.injEq] at h
      simp [← h, isAttackPatternObj, hm, ih hrest]

/-- A successful technique-ID extraction forces the attack-pattern to be a
dict. -/
theorem extract_ok_dict {ap : PVal} {r : Option String}
    (h : extractMitreTechniqueId ap = .ok r) : ∃ kvs, ap = .vdict kvs := by
  cases ap <;> first
    | exact ⟨_, rfl⟩
    | simp [extractMitreTechniqueId, pyGet] at h

/-- Any successful service run decomposes into its stages, and the output
dict is assembled from the loop's results. -/
theorem matchStix_ok_shape {store : List PVal} {b : PVal} {fb ft : Bool} {out : PVal}
    (h : matchStixToAbilities store b fb ft = .ok out) :
    ∃ kvs objs aps ms w c,
      b = .vdict kvs ∧
      pyIterate (pyOr (dGet kvs "objects") (.vlist [])) = .ok objs ∧
      filterAttackPatterns objs = .ok aps ∧
      processLoop store fb ft aps = .ok (ms, w, c) ∧
      out = .vdict [("mappings", .vlist ms),
        ("stats", .vdict [("attack_patterns", .vint aps.length),
          ("with_technique", .vint w), ("abilities_found", .vint c)])] := by
  cases b with
  | vdict kvs =>
    by_cases hty : pyEqStr (dGet kvs "type") "bundle" = true
    · simp only [matchStixToAbilities, hty, if_true] at h
      rcases hit : pyIterate (pyOr (dGet kvs "objects") (.vlist [])) with e | objs <;>
        rw [hit] at h
      · simp at h
      simp only [exceptBind_ok] at h
      rcases hf : filterAttackPatterns objs with e | aps <;> rw [hf] at h
      · simp at h
      simp only [exceptBind_ok] at h
      rcases hl : processLoop store fb ft aps with e | triple <;> rw [hl] at h
      · simp at h
      obtain ⟨ms, w, c⟩ := triple
      simp only [exceptBind_ok, exceptPure_eq_ok, Except.ok.injEq] at h
      exact ⟨kvs, objs, aps, ms, w, c, rfl, hit, hf, hl, h.symm⟩
    · simp only [Bool.not_eq_true] at hty
      simp [matchStixToAbilities, hty] at h
  | vnone => simp [matchStixToAbilities] at h
  | vbool x => simp [matchStixToAbilities] at h
  | vint x => simp [matchStixToAbilities] at h
  | vstr x => simp [matchStixToAbilities] at h
  | vlist x => simp [matchStixToAbilities] at h
  | vobj x => simp [matchStixToAbilities] at h

/-! ### The claims -/

/-- Claim C9: on any successful run the stats are computed as follows:
`attack_patterns` is the number of objects in the bundle whose `type` is
`"attack-pattern"` — each of which, null technique included, contributes one
mapping entry; `with_technique` counts the mappings with a resolved (non-null)
technique ID; `abilities_found` sums the lengths of the post-filter abilities
lists across all mappings, without global deduplication. -/
theorem claim_C9 {store : List PVal} {b : PVal} {fb ft : Bool} {out : PVal}
    (h : matchStixToAbilities store b fb ft = .ok out) :
    ∃ ms : List PVal,
      getKey out "mappings" = .vlist ms ∧
      getKey (getKey out "stats") "attack_patterns" = .vint ms.length ∧
      (∀ kvs, b = .vdict kvs →
        ∀ objs, pyIterate (pyOr (dGet kvs "objects") (.vlist [])) = .ok objs →
          ms.length = objs.countP isAttackPatternObj) ∧
      getKey (getKey out "stats") "with_technique" = .vint (ms.countP hasTechB) ∧
      getKey (getKey out "stats") "abilities_found" =
        .vint ((ms.map abilitiesLen).sum) := by
  obtain ⟨kvs, objs, aps, ms, w, c, rfl, hit, hf, hl, rfl⟩ := matchStix_ok_shape h
  obtain ⟨hlen, hw, hc⟩ := processLoop_stats hl
  refine ⟨ms, rfl, ?_, ?_, ?_, ?_⟩
  · simp [getKey, dGet, lookupKey, hlen]
  · rintro kvs2 heq objs2 hit2
    injection heq with heq2
    subst heq2
    rw [hit] at hit2
    injection hit2 with hit3
    subst hit3
    rw [filterAttackPatterns_ok_eq hf] at hlen
    rw [hlen, List.countP_eq_length_filter]
  · simp [getKey, dGet, lookupKey, hw]
  · simp [getKey, dGet, lookupKey, hc]

/-- Claim C1, counterexample to the stated form: a dict with
`type == "bundle"` whose `objects` list contains a non-dict makes the
pipeline raise an `AttributeError` (at `o.get('type')`), so "for every input
that is a dict with type == 'bundle' it never raises" fails on the code. -/
theorem claim_C1_counterexample :
    bundleShaped (.vdict [("type", .vstr "bundle"),
      ("objects", .vlist [.vint 1])]) = true ∧
    matchStixToAbilities [] (.vdict [("type", .vstr "bundle"),
      ("objects", .vlist [.vint 1])]) true false =
      .error (.attributeError "object has no attribute get") :=
  ⟨rfl, rfl⟩

/-- Claim C1 as amended: the `InvalidBundle` rejection (`ValueError`) is
raised exactly when the input is not a dict with `type == "bundle"`; for every
well-shaped bundle (its `objects` absent/falsy or a list of dicts whose
reference, phase and ability fields carry strings where strings are expected)
over a well-shaped store the call never raises; and a well-shaped bundle with
zero attack-patterns yields an empty mappings list, not an error. -/
theorem claim_C1 :
    (∀ (store : List PVal) (b : PVal) (fb ft : Bool),
      (∃ msg, matchStixToAbilities store b fb ft = .error (.valueError msg)) ↔
        bundleShaped b = false) ∧
    (∀ (store : List PVal) (b : PVal) (fb ft : Bool),
      wellShapedBundle b = true → (∀ a ∈ store, wellShapedAbility a = true) →
      ∃ out, matchStixToAbilities store b fb ft = .ok out) ∧
    (∀ (store : List PVal) (b : PVal) (fb ft : Bool),
      wellShapedBundle b = true → (∀ a ∈ store, wellShapedAbility a = true) →
      (∀ o ∈ bundleObjs b, isAttackPatternObj o = false) →
      matchStixToAbilities store b fb ft =
        .ok (.vdict [("mappings", .vlist []),
          ("stats", .vdict [("attack_patterns", .vint 0),
            ("with_technique", .vint 0), ("abilities_found", .vint 0)])])) := by
  refine ⟨matchStix_valueError_iff,
    fun store b fb ft hb hs => matchStixToAbilities_ok hb hs, ?_⟩
  intro store b fb ft hb hs hnone
  obtain ⟨kvs, rfl, hty, hor, hobjs⟩ := wellShapedBundle_elim hb
  simp only [matchStixToAbilities, hty, if_true, hor, pyIterate, exceptBind_ok]
  rw [filterAttackPatterns_eq (fun o ho => wellShapedObj_dict (hobjs o ho))]
  have hfil : (bundleObjs (.vdict kvs)).filter isAttackPatternObj = [] := by
    rw [List.filter_eq_nil]
    intro o ho
    simp [hnone o ho]
  rw [hfil]
  simp [processLoop]

/-- Claim C1, witness: the iff at a non-dict input, success on a concrete
well-shaped bundle and store, and the empty result on a concrete bundle with
zero attack-patterns. -/
theorem claim_C1_witness :
    ((∃ msg, matchStixToAbilities [] (.vint 3) true false =
        .error (.valueError msg)) ↔ bundleShaped (.vint 3) = false) ∧
    (∃ out, matchStixToAbilities [fxAbilityParent] fxBundle true false = .ok out) ∧
    matchStixToAbilities [] fxBundleNoAP true false =
      .ok (.vdict [("mappings", .vlist []),
        ("stats", .vdict [("attack_patterns", .vint 0), ("with_technique", .vint 0),
          ("abilities_found", .vint 0)])]) :=
  ⟨claim_C1.1 [] (.vint 3) true false,
   claim_C1.2.1 [fxAbilityParent] fxBundle true false (by decide) (by decide),
   claim_C1.2.2 [] fxBundleNoAP true false (by decide) (by decide) (by decide)⟩

/-- Claim C3: the tactic filter runs only when `filter_by_tactic` is true,
the tactic set is non-empty and the abilities list is non-empty — otherwise
the abilities list is returned unchanged (in particular an empty tactic set
under `filter_by_tactic=true` does not zero it out); when it runs, the result
is the order-preserving sublist of exactly the abilities whose `tactic` is a
member of the tactic set, compared without case transformation. -/
theorem claim_C3 (filt : Bool) (ts : List String) (abilities : List PVal) :
    (¬(filt = true ∧ ts ≠ [] ∧ abilities ≠ []) →
      applyTacticFilter filt ts abilities = .ok abilities) ∧
    ((∀ a ∈ abilities, filterableAbility a = true) →
      filt = true → ts ≠ [] → abilities ≠ [] →
      applyTacticFilter filt ts abilities =
        .ok (abilities.filter (tacticMemB ts)) ∧
      (abilities.filter (tacticMemB ts)).Sublist abilities) := by
  constructor
  · intro hn
    apply applyTacticFilter_noop
    cases filt with
    | false => exact Or.inl rfl
    | true =>
      by_cases hts : ts = []
      · exact Or.inr (Or.inl hts)
      · by_cases hab : abilities = []
        · exact Or.inr (Or.inr hab)
        · exact absurd ⟨rfl, hts, hab⟩ hn
  · intro hall hf hts hab
    exact ⟨applyTacticFilter_run hf hts hab hall, List.filter_sublist _⟩

/-- Claim C3, witness: with the filter on, a non-empty tactic set and one
dict-shaped ability. -/
theorem claim_C3_witness :
    (¬(true = true ∧ (["execution"] : List String) ≠ [] ∧
        ([fxAbility1] : List PVal) ≠ []) →
      applyTacticFilter true ["execution"] [fxAbility1] = .ok [fxAbility1]) ∧
    ((∀ a ∈ [fxAbility1], filterableAbility a = true) →
      true = true → (["execution"] : List String) ≠ [] →
      ([fxAbility1] : List PVal) ≠ [] →
      applyTacticFilter true ["execution"] [fxAbility1] =
        .ok (([fxAbility1] : List PVal).filter (tacticMemB ["execution"])) ∧
      (([fxAbility1] : List PVal).filter (tacticMemB ["execution"])).Sublist
        [fxAbility1]) :=
  claim_C3 true ["execution"] [fxAbility1]

/-- Claim C4: every recognized spelling — lower-case `external_id`,
upper-case `external_id`, and the ATT&CK URL form — derives exactly
`"T1055.011"`. -/
theorem claim_C4 :
    extractMitreTechniqueId (.vdict [("external_references",
      .vlist [.vdict [("source_name", .vstr "mitre-attack"),
        ("external_id", .vstr "t1055.011")]])]) = .ok (some "T1055.011") ∧
    extractMitreTechniqueId (.vdict [("external_references",
      .vlist [.vdict [("source_name", .vstr "mitre-attack"),
        ("external_id", .vstr "T1055.011")]])]) = .ok (some "T1055.011") ∧
    extractMitreTechniqueId (.vdict [("external_references",
      .vlist [.vdict [("source_name", .vstr "mitre-attack"),
        ("url", .vstr "https://attack.mitre.org/techniques/T1055/011")]])]) =
      .ok (some "T1055.011") :=
  ⟨rfl, rfl, rfl⟩

/-- Claim C5, counterexample to the stated strict priority: with a
URL-only `mitre-attack` reference listed before a `mitre-attack` reference
carrying a valid `external_id`, the code returns the URL-derived `T1234`,
while the claimed strict priority (external IDs before any URL) would return
`T5678`. -/
theorem claim_C5_counterexample :
    extractMitreTechniqueId fxApC5 = .ok (some "T1234") ∧
    claimStrictPriorityTechId (apRefs fxApC5) = some "T5678" ∧
    ("T1234" : String) ≠ "T5678" :=
  ⟨rfl, rfl, by decide⟩

/-- Claim C5 as amended: the references are scanned in order and each
`mitre-attack` reference tries its `external_id` before its own URL, the
first hit winning (so an earlier mitre reference's URL beats a later one's
`external_id`); only when no `mitre-attack` reference yields an ID are all
references' URLs scanned; and when nothing matches the attack-pattern is
still emitted with a null `technique_id` and empty `abilities`. -/
theorem claim_C5 :
    (∀ ap, wellShapedAPRefs ap = true →
      extractMitreTechniqueId ap = .ok (perEntryTechId (apRefs ap))) ∧
    (∀ (store : List PVal) (fb ft : Bool) (ap : PVal) (ts : List String),
      extractMitreTactics ap = .ok ts →
      extractMitreTechniqueId ap = .ok none →
      ∃ m, processAP store fb ft ap = .ok (m, 0, 0, []) ∧
        getKey m "technique_id" = .vnone ∧ getKey m "abilities" = .vlist []) := by
  refine ⟨fun ap h => extractMitreTechniqueId_eq h, ?_⟩
  intro store fb ft ap ts hts htid
  obtain ⟨kvs, rfl⟩ := extract_ok_dict htid
  refine ⟨mkMappingNoTech (dGet kvs "id") (dGet kvs "name") ts, ?_, rfl, rfl⟩
  simp only [processAP, pyGet_vdict, exceptBind_ok, hts, htid, exceptPure_eq_ok]

/-- Claim C5, witness: the per-entry scan on the counterexample
attack-pattern, and the null emission for an attack-pattern with no
references. -/
theorem claim_C5_witness :
    extractMitreTechniqueId fxApC5 = .ok (perEntryTechId (apRefs fxApC5)) ∧
    (∃ m, processAP [] true false (.vdict []) = .ok (m, 0, 0, []) ∧
      getKey m "technique_id" = .vnone ∧ getKey m "abilities" = .vlist []) :=
  ⟨claim_C5.1 fxApC5 (by decide),
   claim_C5.2 [] true false (.vdict []) [] rfl rfl⟩

/-- Claim C10: a dict input with `type == "bundle"` whose `objects` field is
absent or null succeeds with an empty mappings list and all-zero stats,
exactly as for an empty object list. -/
theorem claim_C10 (store : List PVal) (kvs : List (String × PVal)) (fb ft : Bool)
    (hty : pyEqStr (dGet kvs "type") "bundle" = true)
    (hobj : lookupKey kvs "objects" = none ∨ lookupKey kvs "objects" = some .vnone) :
    matchStixToAbilities store (.vdict kvs) fb ft =
      .ok (.vdict [("mappings", .vlist []),
        ("stats", .vdict [("attack_patterns", .vint 0), ("with_technique", .vint 0),
          ("abilities_found", .vint 0)])]) := by
  have hget : dGet kvs "objects" = .vnone := by
    rcases hobj with h | h <;> simp [dGet, h]
  simp [matchStixToAbilities, hty, hget, pyOr, pyTruthy, pyIterate,
    filterAttackPatterns, processLoop]

/-- Claim C10, witness: a bundle dict with no `objects` key, and one with
`objects = None`, over a non-empty store. -/
theorem claim_C10_witness :
    matchStixToAbilities [fxAbility1] (.vdict [("type", .vstr "bundle")]) true true =
      .ok (.vdict [("mappings", .vlist []),
        ("stats", .vdict [("attack_patterns", .vint 0), ("with_technique", .vint 0),
          ("abilities_found", .vint 0)])]) ∧
    matchStixToAbilities [fxAbility1]
        (.vdict [("type", .vstr "bundle"), ("objects", .vnone)]) false false =
      .ok (.vdict [("mappings", .vlist []),
        ("stats", .vdict [("attack_patterns", .vint 0), ("with_technique", .vint 0),
          ("abilities_found", .vint 0)])]) :=
  ⟨claim_C10 [fxAbility1] [("type", .vstr "bundle")] true true rfl (Or.inl rfl),
   claim_C10 [fxAbility1] [("type", .vstr "bundle"), ("objects", .vnone)] false false
     rfl (Or.inr rfl)⟩

/-! ### Helpers for C2 -/

/-- One main-loop iteration in the resolved-technique case, assembled from
its stages. -/
theorem processAP_tech {store : List PVal} {fb ft : Bool}
    {kvs : List (String × PVal)} {ts : List String} {tid : String}
    (hts : extractMitreTactics (.vdict kvs) = .ok ts)
    (htid : extractMitreTechniqueId (.vdict kvs) = .ok (some tid))
    (hne : strEmpty tid = false)
    {abs0 : List PVal} {par : Option String} {qs : List String}
    (hlk : abilityLookup store tid fb = .ok (abs0, par, qs))
    {abs : List PVal} (hfl : applyTacticFilter ft ts abs0 = .ok abs) :
    processAP store fb ft (.vdict kvs) =
      .ok (mkMapping (dGet kvs "id") (dGet kvs "name") tid par ts abs, 1,
        abs.length, qs) := by
  simp only [processAP, pyGet_vdict, exceptBind_ok, hts, htid, exceptBind_ok]
  simp only [hne, Bool.false_eq_true, if_false, hlk, exceptBind_ok, hfl,
    exceptPure_eq_ok]

/-- The lookup when no fallback fires: one query, no parent recorded. -/
theorem abilityLookup_noFallback {store : List PVal} {tid : String} {fb : Bool}
    {ex : List PVal} (hex : findAbilitiesForAttackId store tid = .ok ex)
    (hcond : (ex.isEmpty && fb && tid.data.contains '.') = false) :
    abilityLookup store tid fb = .ok (ex, none, [tid]) := by
  have hexL : findLoop tid store = .ok ex := hex
  simp only [abilityLookup, findAbilitiesForAttackId, hexL, exceptBind_ok, hcond,
    Bool.false_eq_true, if_false, exceptPure_eq_ok]

/-- The lookup when the fallback fires: exactly one further query, with the
upper-cased portion of the ID before the dot, recorded as the parent. -/
theorem abilityLookup_fallback {store : List PVal} {tid : String}
    {ex pex : List PVal} (hex : findAbilitiesForAttackId store tid = .ok ex)
    (hemp : ex.isEmpty = true) (hdot : tid.data.contains '.' = true)
    (hpex : findAbilitiesForAttackId store (pyUpper (beforeDot tid)) = .ok pex) :
    abilityLookup store tid true =
      .ok (pex, some (pyUpper (beforeDot tid)), [tid, pyUpper (beforeDot tid)]) := by
  have hexL : findLoop tid store = .ok ex := hex
  have hpexL : findLoop (pyUpper (beforeDot tid)) store = .ok pex := hpex
  simp only [abilityLookup, findAbilitiesForAttackId, hexL, exceptBind_ok, hemp,
    hdot, Bool.and_self, Bool.and_true, Bool.true_and, if_true, hpexL,
    exceptPure_eq_ok]

/-- Claim C2: for a resolved sub-technique ID, a non-empty exact match means
a single store query, no `parent_technique_id` key, and `technique_id` kept
as the sub-technique; an empty exact match under `fallback_to_parent=true`
issues exactly one further query with the portion before the dot, records it
in `parent_technique_id`, and still keeps the original sub-technique in
`technique_id`; with the fallback off (or no fallback needed) the key is
absent. -/
theorem claim_C2 {store : List PVal} {ft : Bool} {ap : PVal} {ts : List String}
    {tid : String} {ex pex : List PVal}
    (hdot : tid.data.contains '.' = true)
    (hne : strEmpty tid = false)
    (hpre : strEmpty (pyUpper (beforeDot tid)) = false)
    (hts : extractMitreTactics ap = .ok ts)
    (htid : extractMitreTechniqueId ap = .ok (some tid))
    (hex : findAbilitiesForAttackId store tid = .ok ex)
    (hpex : findAbilitiesForAttackId store (pyUpper (beforeDot tid)) = .ok pex)
    (hfex : ∀ m ∈ ex, filterableAbility m = true)
    (hfpex : ∀ m ∈ pex, filterableAbility m = true) :
    (ex ≠ [] → ∀ fb : Bool, ∃ m abs,
      processAP store fb ft ap = .ok (m, 1, abs.length, [tid]) ∧
      applyTacticFilter ft ts ex = .ok abs ∧
      hasKeyB m "parent_technique_id" = false ∧
      getKey m "technique_id" = .vstr tid ∧
      getKey m "abilities" = .vlist abs) ∧
    (ex = [] → ∃ m abs,
      processAP store true ft ap =
        .ok (m, 1, abs.length, [tid, pyUpper (beforeDot tid)]) ∧
      applyTacticFilter ft ts pex = .ok abs ∧
      hasKeyB m "parent_technique_id" = true ∧
      getKey m "parent_technique_id" = .vstr (pyUpper (beforeDot tid)) ∧
      getKey m "technique_id" = .vstr tid ∧
      getKey m "abilities" = .vlist abs) ∧
    (ex = [] → ∃ m,
      processAP store false ft ap = .ok (m, 1, 0, [tid]) ∧
      hasKeyB m "parent_technique_id" = false ∧
      getKey m "technique_id" = .vstr tid ∧
      getKey m "abilities" = .vlist []) := by
  obtain ⟨kvs, rfl⟩ := extract_ok_dict htid
  refine ⟨?_, ?_, ?_⟩
  · intro hnex fb
    have hemp : ex.isEmpty = false := by simpa [List.isEmpty_iff] using hnex
    have hlk := @abilityLookup_noFallback store tid fb ex hex (by simp [hemp])
    obtain ⟨abs, habs⟩ := @applyTacticFilter_ok ft ts ex hfex
    exact ⟨_, abs, processAP_tech hts htid hne hlk habs, habs,
      hasKeyB_mkMapping_parent_none _ _ _ _ _,
      getKey_mkMapping_techId _ _ _ _ _ _,
      getKey_mkMapping_abilities _ _ _ _ _ _⟩
  · intro hemp
    subst hemp
    have hlk := abilityLookup_fallback hex rfl hdot hpex
    obtain ⟨abs, habs⟩ := @applyTacticFilter_ok ft ts pex hfpex
    obtain ⟨hpk, hpk2⟩ := getKey_mkMapping_parent_some (dGet kvs "id")
      (dGet kvs "name") tid (pyUpper (beforeDot tid)) hpre ts abs
    exact ⟨_, abs, processAP_tech hts htid hne hlk habs, habs, hpk2, hpk,
      getKey_mkMapping_techId _ _ _ _ _ _,
      getKey_mkMapping_abilities _ _ _ _ _ _⟩
  · intro hemp
    subst hemp
    have hlk := @abilityLookup_noFallback store tid false [] hex (by simp)
    have habs : applyTacticFilter ft ts ([] : List PVal) = .ok [] :=
      applyTacticFilter_noop (Or.inr (Or.inr rfl))
    refine ⟨mkMapping (dGet kvs "id") (dGet kvs "name") tid none ts [], ?_,
      hasKeyB_mkMapping_parent_none _ _ _ _ _,
      getKey_mkMapping_techId _ _ _ _ _ _,
      getKey_mkMapping_abilities _ _ _ _ _ _⟩
    have := processAP_tech hts htid hne hlk habs
    simpa using this

/-- Claim C2, witness: the fallback branch on a concrete sub-technique
attack-pattern whose store only knows the parent technique. -/
theorem claim_C2_witness :
    (([] : List PVal) ≠ [] → ∀ fb : Bool, ∃ m abs,
      processAP [fxAbilityParent] fb false fxAP = .ok (m, 1, abs.length, ["T1059.001"]) ∧
      applyTacticFilter false ["execution"] [] = .ok abs ∧
      hasKeyB m "parent_technique_id" = false ∧
      getKey m "technique_id" = .vstr "T1059.001" ∧
      getKey m "abilities" = .vlist abs) ∧
    (([] : List PVal) = [] → ∃ m abs,
      processAP [fxAbilityParent] true false fxAP =
        .ok (m, 1, abs.length, ["T1059.001", pyUpper (beforeDot "T1059.001")]) ∧
      applyTacticFilter false ["execution"] [fxNormParent] = .ok abs ∧
      hasKeyB m "parent_technique_id" = true ∧
      getKey m "parent_technique_id" = .vstr (pyUpper (beforeDot "T1059.001")) ∧
      getKey m "technique_id" = .vstr "T1059.001" ∧
      getKey m "abilities" = .vlist abs) ∧
    (([] : List PVal) = [] → ∃ m,
      processAP [fxAbilityParent] false false fxAP = .ok (m, 1, 0, ["T1059.001"]) ∧
      hasKeyB m "parent_technique_id" = false ∧
      getKey m "technique_id" = .vstr "T1059.001" ∧
      getKey m "abilities" = .vlist []) :=
  @claim_C2 [fxAbilityParent] false fxAP ["execution"] "T1059.001" [] [fxNormParent]
    (by decide) rfl rfl rfl rfl rfl rfl (by decide) (by decide)

/-- Claim C6: the derived tactics are exactly the trimmed non-empty
`phase_name`s of the `mitre-attack` phases (case-insensitive chain name),
duplicate-free and lexicographically sorted, and the result is invariant
under reordering of the input phases. -/
theorem claim_C6 {ap : PVal} (h : wellShapedAPPhases ap = true) :
    ∃ ts, extractMitreTactics ap = .ok ts ∧
      List.Sorted strLe ts ∧ ts.Nodup ∧
      (∀ s, s ∈ ts ↔ ∃ p ∈ apPhases ap, phaseTactic p = some s) ∧
      (∀ ap2, wellShapedAPPhases ap2 = true →
        (apPhases ap2).Perm (apPhases ap) →
        extractMitreTactics ap2 = extractMitreTactics ap) := by
  refine ⟨_, extractMitreTactics_eq h, sorted_sortStrings _, ?_, ?_, ?_⟩
  · exact ((sortStrings_perm _).nodup_iff).mpr (List.nodup_dedup _)
  · intro s
    rw [(sortStrings_perm _).mem_iff, List.mem_dedup, List.mem_filterMap]
  · intro ap2 h2 hperm
    rw [extractMitreTactics_eq h, extractMitreTactics_eq h2]
    have hd := (hperm.filterMap phaseTactic).dedup
    have hp2 : List.Perm
        (sortStrings ((apPhases ap2).filterMap phaseTactic).dedup)
        (sortStrings ((apPhases ap).filterMap phaseTactic).dedup) :=
      (sortStrings_perm _).trans (hd.trans (sortStrings_perm _).symm)
    haveI : IsAntisymm String strLe := ⟨fun _ _ => strLe_antisymm⟩
    exact congrArg Except.ok
      (List.eq_of_perm_of_sorted hp2 (sorted_sortStrings _) (sorted_sortStrings _))

/-- Claim C6, witness: mixed-case chain names, duplicates, padding and a
blank phase on a concrete attack-pattern. -/
theorem claim_C6_witness :
    ∃ ts, extractMitreTactics fxApTac = .ok ts ∧
      List.Sorted strLe ts ∧ ts.Nodup ∧
      (∀ s, s ∈ ts ↔ ∃ p ∈ apPhases fxApTac, phaseTactic p = some s) ∧
      (∀ ap2, wellShapedAPPhases ap2 = true →
        (apPhases ap2).Perm (apPhases fxApTac) →
        extractMitreTactics ap2 = extractMitreTactics fxApTac) :=
  claim_C6 (by decide)

/-- Case-insensitivity of the matching loop in the requested ID. -/
theorem findLoop_ci {tid tid2 : String} (hci : pyUpper tid = pyUpper tid2)
    (store : List PVal) : findLoop tid store = findLoop tid2 store := by
  induction store with
  | nil => rfl
  | cons a rest ih => simp only [findLoop, hci, ih]

/-- Claim C7: the exact-match step selects precisely the abilities whose
`technique.attack_id` upper-cases to the requested ID upper-cased — the
comparison is case-insensitive in the requested ID, and an ability with an
absent `attack_id` is never selected for a non-empty request. -/
theorem claim_C7 {store : List PVal} (tid tid2 : String)
    (h : ∀ a ∈ store, strOrFalsy (abilityAttackIdRaw a) = true)
    (hci : pyUpper tid = pyUpper tid2) :
    findAbilitiesForAttackId store tid =
      .ok ((store.filter (attackMatchB tid)).map normAbility) ∧
    findAbilitiesForAttackId store tid = findAbilitiesForAttackId store tid2 ∧
    (strEmpty tid = false →
      ∀ a ∈ store.filter (attackMatchB tid), abilityAttackIdRaw a ≠ .vnone) := by
  refine ⟨findAbilitiesForAttackId_eq h, findLoop_ci hci store, ?_⟩
  intro hne a ha hnone
  have hmatch := List.of_mem_filter ha
  simp only [attackMatchB, hnone, decide_eq_true_eq] at hmatch
  have hemp : strEmpty (pyUpper tid) = true := by
    rw [← hmatch]
    rfl
  have hsame : strEmpty (pyUpper tid) = strEmpty tid := by
    cases htd : tid.data <;> simp [strEmpty, pyUpper, htd]
  rw [hsame, hne] at hemp
  exact Bool.noConfusion hemp

/-- Claim C7, witness: a lower-case request against a store holding a
lower-case dict-shaped and an upper-case attribute-shaped ability. -/
theorem claim_C7_witness :
    findAbilitiesForAttackId [fxAbility1, fxAbility2] "t1059.001" =
      .ok ((([fxAbility1, fxAbility2] : List PVal).filter
        (attackMatchB "t1059.001")).map normAbility) ∧
    findAbilitiesForAttackId [fxAbility1, fxAbility2] "t1059.001" =
      findAbilitiesForAttackId [fxAbility1, fxAbility2] "T1059.001" ∧
    (strEmpty "t1059.001" = false →
      ∀ a ∈ ([fxAbility1, fxAbility2] : List PVal).filter
        (attackMatchB "t1059.001"), abilityAttackIdRaw a ≠ .vnone) :=
  claim_C7 "t1059.001" "T1059.001" (by decide) rfl

/-- Claim C8: over any store whose `attack_id`s are strings-or-absent, the
matcher succeeds and every returned record presents exactly `ability_id`,
`name`, `tactic` and a nested `technique` with `attack_id` and `name`; and a
record with every field missing — dict-shaped or attribute-shaped — yields
all-null values rather than a failure. -/
theorem claim_C8 {store : List PVal} (tid : String)
    (h : ∀ a ∈ store, strOrFalsy (abilityAttackIdRaw a) = true) :
    (∃ res, findAbilitiesForAttackId store tid = .ok res ∧
      ∀ m ∈ res, normalizedAbilityShape m = true) ∧
    normAbility (.vdict []) = .vdict [("ability_id", .vnone), ("name", .vnone),
      ("tactic", .vnone),
      ("technique", .vdict [("attack_id", .vnone), ("name", .vnone)])] ∧
    normAbility (.vobj []) = .vdict [("ability_id", .vnone), ("name", .vnone),
      ("tactic", .vnone),
      ("technique", .vdict [("attack_id", .vnone), ("name", .vnone)])] := by
  refine ⟨⟨_, findAbilitiesForAttackId_eq h, ?_⟩, rfl, rfl⟩
  intro m hm
  obtain ⟨a, -, rfl⟩ := List.mem_map.mp hm
  exact normalizedAbilityShape_normAbility a

/-- Claim C8, witness: a store mixing dict-shaped, attribute-shaped and
entirely empty records. -/
theorem claim_C8_witness :
    (∃ res, findAbilitiesForAttackId [fxAbility1, fxAbility2, .vdict [], .vobj []]
        "T1059.001" = .ok res ∧
      ∀ m ∈ res, normalizedAbilityShape m = true) ∧
    normAbility (.vdict []) = .vdict [("ability_id", .vnone), ("name", .vnone),
      ("tactic", .vnone),
      ("technique", .vdict [("attack_id", .vnone), ("name", .vnone)])] ∧
    normAbility (.vobj []) = .vdict [("ability_id", .vnone), ("name", .vnone),
      ("tactic", .vnone),
      ("technique", .vdict [("attack_id", .vnone), ("name", .vnone)])] :=
  claim_C8 "T1059.001" (by decide)

/-- Claim C9, witness: the concrete fallback scenario — one attack-pattern,
one parent-technique ability — evaluated end to end. -/
theorem claim_C9_witness :
    ∃ ms : List PVal,
      getKey fxOut "mappings" = .vlist ms ∧
      getKey (getKey fxOut "stats") "attack_patterns" = .vint ms.length ∧
      (∀ kvs, fxBundle = .vdict kvs →
        ∀ objs, pyIterate (pyOr (dGet kvs "objects") (.vlist [])) = .ok objs →
          ms.length = objs.countP isAttackPatternObj) ∧
      getKey (getKey fxOut "stats") "with_technique" = .vint (ms.countP hasTechB) ∧
      getKey (getKey fxOut "stats") "abilities_found" =
        .vint ((ms.map abilitiesLen).sum) :=
  @claim_C9 [fxAbilityParent] fxBundle true false fxOut rfl

end Stixmapper
